import Mathlib

/-!
# Verification of the flee-ai-test geometric core

Shallow embedding of the repository's geometry primitives, spatial grid,
collision resolver, level builder and steering controller.

Conventions of the embedding:
* 2D float vectors (`Vec2`) become pairs over an exact linearly ordered field:
  `ℚ` wherever the source only adds, multiplies, divides and compares
  (so every definition stays computable), and `ℝ` for the collision and
  steering code, which takes genuine square roots (`normalize`, `length`).
* Float division by zero produces `NaN`/`±Inf` in the source, and every
  comparison against such a value is false.  Where the source relies on that
  (the `r_cross_s == 0` case of `line_intersect`), the embedding makes the
  resulting branch explicit.
* `f32::signum` maps `+0.0` to `1.0`; the embedding of `side_of_line_detection`
  maps an exact zero determinant to `1` accordingly.
* Rendering colors, gizmos and RNG-seeded colors are irrelevant to the claims
  and are dropped from the embedded data.
-/

namespace FleeAI

/-- 2D vector over an exact field, standing in for bevy's `Vec2`. -/
abbrev Vec2 (K : Type) := K × K

variable {K : Type} [LinearOrderedField K]

/-- `cross_product` from `src/utils.rs` / `src/collisions.rs`:
`a.x * b.y - a.y * b.x`. -/
def cross_product (a b : Vec2 K) : K :=
  a.1 * b.2 - a.2 * b.1

/-- Dot product of two 2D vectors (`Vec2::dot`). -/
def dot (a b : Vec2 K) : K :=
  a.1 * b.1 + a.2 * b.2

/-- `line_intersect` from `src/utils.rs` (identical copy in
`src/collisions.rs`): solves the parametric system for two segments via cross
products and returns the intersection point only when both parameters lie in
`[0,1]`.  When `r_cross_s == 0` the source divides by zero: `t` and `u` become
`NaN` or `±Inf` and the `[0,1]` comparisons are all false, so the function
returns `None`; the embedding writes that branch explicitly. -/
def line_intersect (l1s l1e l2s l2e : Vec2 K) : Option (Vec2 K) :=
  let l1 := l1e - l1s
  let l2 := l2e - l2s
  let rCrossS := cross_product l1 l2
  if rCrossS = 0 then
    none
  else
    let aToC := l2s - l1s
    let t := cross_product aToC l2 / rCrossS
    let u := cross_product aToC l1 / rCrossS
    if 0 ≤ t ∧ t ≤ 1 ∧ 0 ≤ u ∧ u ≤ 1 then
      some (l1s.1 + t * l1.1, l1s.2 + t * l1.2)
    else
      none

/-- `lerp` from `src/utils.rs` / `src/main.rs`: `a + (b - a) * t`. -/
def lerp (a b t : K) : K :=
  a + (b - a) * t

/-- Spec-side notion for C4: the two closed segments truly cross or touch
within their finite extents, i.e. they have a common point. -/
def segmentsTouch (p1 p2 q1 q2 : Vec2 K) : Prop :=
  ∃ t u : K, 0 ≤ t ∧ t ≤ 1 ∧ 0 ≤ u ∧ u ≤ 1 ∧
    p1 + t • (p2 - p1) = q1 + u • (q2 - q1)

/-- Auxiliary: a vector whose cross products with two independent vectors both
vanish is zero. -/
lemma eq_zero_of_cross_eq_zero (v r s : Vec2 K)
    (hrs : cross_product r s ≠ 0)
    (hvr : cross_product v r = 0) (hvs : cross_product v s = 0) : v = 0 := by
  rcases v with ⟨v1, v2⟩
  rcases r with ⟨r1, r2⟩
  rcases s with ⟨s1, s2⟩
  simp only [cross_product] at hrs hvr hvs
  have h1 : v1 * (r1 * s2 - r2 * s1) = 0 := by linear_combination r1 * hvs - s1 * hvr
  have h2 : v2 * (r1 * s2 - r2 * s1) = 0 := by linear_combination r2 * hvs - s2 * hvr
  have hv1 : v1 = 0 := by
    rcases mul_eq_zero.mp h1 with h | h
    · exact h
    · exact absurd h hrs
  have hv2 : v2 = 0 := by
    rcases mul_eq_zero.mp h2 with h | h
    · exact h
    · exact absurd h hrs
  simp [hv1, hv2, Prod.ext_iff]

/-- The parameter pair `(t, u)` computed by `line_intersect` (proof helper). -/
def interParams (p1 p2 q1 q2 : Vec2 K) : K × K :=
  (cross_product (q1 - p1) (q2 - q1) / cross_product (p2 - p1) (q2 - q1),
   cross_product (q1 - p1) (p2 - p1) / cross_product (p2 - p1) (q2 - q1))

/-- Unfolding of `line_intersect` in the non-parallel case. -/
lemma line_intersect_of_ne (p1 p2 q1 q2 : Vec2 K)
    (h : cross_product (p2 - p1) (q2 - q1) ≠ 0) :
    line_intersect p1 p2 q1 q2 =
      (if 0 ≤ (interParams p1 p2 q1 q2).1 ∧ (interParams p1 p2 q1 q2).1 ≤ 1 ∧
          0 ≤ (interParams p1 p2 q1 q2).2 ∧ (interParams p1 p2 q1 q2).2 ≤ 1 then
         some (p1.1 + (interParams p1 p2 q1 q2).1 * (p2 - p1).1,
               p1.2 + (interParams p1 p2 q1 q2).1 * (p2 - p1).2)
       else
         none) := by
  simp only [line_intersect, if_neg h, interParams]

/-- When the segments are not parallel, the point at parameter `t` on the
first line equals the point at parameter `u` on the second line. -/
lemma interParams_point_eq (p1 p2 q1 q2 : Vec2 K)
    (h : cross_product (p2 - p1) (q2 - q1) ≠ 0) :
    p1 + (interParams p1 p2 q1 q2).1 • (p2 - p1) =
      q1 + (interParams p1 p2 q1 q2).2 • (q2 - q1) := by
  have h' : (p2.1 - p1.1) * (q2.2 - q1.2) - (p2.2 - p1.2) * (q2.1 - q1.1) ≠ 0 := by
    simpa [cross_product] using h
  apply Prod.ext
  · simp only [interParams, cross_product, Prod.fst_add, Prod.fst_sub, Prod.smul_def,
      smul_eq_mul]
    field_simp
    ring
  · simp only [interParams, cross_product, Prod.snd_add, Prod.fst_sub, Prod.snd_sub,
      Prod.smul_def, smul_eq_mul]
    field_simp
    ring

/-- C4 (amended): in the non-degenerate case `r_cross_s ≠ 0`,
`line_intersect` returns `Some` exactly when the two closed segments have a
common point; every degenerate case `r_cross_s = 0` (parallel or collinear,
including collinear overlapping segments) returns `None`. -/
theorem line_intersect_correct (p1 p2 q1 q2 : Vec2 ℚ) :
    (cross_product (p2 - p1) (q2 - q1) = 0 → line_intersect p1 p2 q1 q2 = none) ∧
    (cross_product (p2 - p1) (q2 - q1) ≠ 0 →
      ((line_intersect p1 p2 q1 q2).isSome ↔ segmentsTouch p1 p2 q1 q2)) := by
  constructor
  · intro h
    simp [line_intersect, h]
  · intro h
    rw [line_intersect_of_ne p1 p2 q1 q2 h]
    constructor
    · intro hs
      by_cases hc : 0 ≤ (interParams p1 p2 q1 q2).1 ∧ (interParams p1 p2 q1 q2).1 ≤ 1 ∧
          0 ≤ (interParams p1 p2 q1 q2).2 ∧ (interParams p1 p2 q1 q2).2 ≤ 1
      · exact ⟨(interParams p1 p2 q1 q2).1, (interParams p1 p2 q1 q2).2,
          hc.1, hc.2.1, hc.2.2.1, hc.2.2.2, interParams_point_eq p1 p2 q1 q2 h⟩
      · rw [if_neg hc] at hs
        exact absurd hs (by simp)
    · rintro ⟨t0, u0, ht0, ht1, hu0, hu1, heq⟩
      have h1 : p1.1 + t0 * (p2.1 - p1.1) = q1.1 + u0 * (q2.1 - q1.1) := by
        have := congrArg Prod.fst heq
        simpa [Prod.smul_def, smul_eq_mul, mul_sub] using this
      have h2 : p1.2 + t0 * (p2.2 - p1.2) = q1.2 + u0 * (q2.2 - q1.2) := by
        have := congrArg Prod.snd heq
        simpa [Prod.smul_def, smul_eq_mul, mul_sub] using this
      have hT : cross_product (q1 - p1) (q2 - q1) =
          t0 * cross_product (p2 - p1) (q2 - q1) := by
        simp only [cross_product, Prod.fst_sub, Prod.snd_sub]
        linear_combination (q1.2 - q2.2) * h1 + (q2.1 - q1.1) * h2
      have hU : cross_product (q1 - p1) (p2 - p1) =
          u0 * cross_product (p2 - p1) (q2 - q1) := by
        simp only [cross_product, Prod.fst_sub, Prod.snd_sub]
        linear_combination (p1.2 - p2.2) * h1 + (p2.1 - p1.1) * h2
      have htt : (interParams p1 p2 q1 q2).1 = t0 := by
        simp only [interParams, hT]
        exact mul_div_cancel_right₀ t0 h
      have huu : (interParams p1 p2 q1 q2).2 = u0 := by
        simp only [interParams, hU]
        exact mul_div_cancel_right₀ u0 h
      rw [if_pos ⟨htt ▸ ht0, htt ▸ ht1, huu ▸ hu0, huu ▸ hu1⟩]
      simp

/-- C4 counterexample: the collinear overlapping segments `(0,0)-(2,0)` and
`(1,0)-(3,0)` touch within their extents (common point `(1,0)`), yet
`line_intersect` returns `None` — so "`Some` iff the segments truly cross or
touch" fails as stated. -/
theorem line_intersect_counterexample :
    line_intersect ((0 : ℚ), (0 : ℚ)) (2, 0) (1, 0) (3, 0) = none ∧
      segmentsTouch ((0 : ℚ), (0 : ℚ)) (2, 0) (1, 0) (3, 0) := by
  constructor
  · simp [line_intersect, cross_product]
  · exact ⟨1/2, 0, by norm_num, by norm_num, le_refl 0, by norm_num, by
      norm_num [Prod.ext_iff, Prod.smul_def]⟩

/-- Witness for `line_intersect_correct`: at the concrete crossing segments
`(0,0)-(2,0)` and `(1,1)-(1,-1)` the hypotheses are discharged and the
intersection is reported. -/
theorem line_intersect_correct_witness :
    (line_intersect ((0 : ℚ), (0 : ℚ)) (2, 0) (1, 1) (1, -1)).isSome = true := by
  have h : cross_product (((2 : ℚ), (0 : ℚ)) - (0, 0)) ((1, -1) - (1, 1)) ≠ 0 := by
    norm_num [cross_product]
  refine ((line_intersect_correct (0, 0) (2, 0) (1, 1) (1, -1)).2 h).mpr ?_
  refine ⟨1/2, 1/2, by norm_num, by norm_num, by norm_num, by norm_num, ?_⟩
  norm_num [Prod.ext_iff, Prod.smul_def]

/-! ## Spatial grid (`src/spatial.rs`)

The grid partitions polygon edges into integer cells.  All arithmetic here is
exact rational; the one square root taken by the source
(`(dx*dx + dy*dy).sqrt()` in `cells_for_ray`) only feeds a ceiling, which is
computed exactly by `natCeilSqrt` below. -/

/-- A polygon as consumed by the spatial grid and the collision resolver:
a point chain (edges are the consecutive pairs `points[i-1], points[i]`) plus
the collision side.  The display color is irrelevant to the claims and
dropped. -/
structure Polygon (K : Type) where
  points : List (Vec2 K)
  collision_side : K

/-- Specialization used by the spatial grid embedding. -/
abbrev PolygonQ := Polygon ℚ

/-- `Edge` from `src/spatial.rs` (field `end` is a Lean keyword, renamed to
`stop`). -/
structure Edge where
  start : Vec2 ℚ
  stop : Vec2 ℚ
deriving DecidableEq

/-- Exact value of `(sqrt q).ceil()` for a rational radicand: the least
natural `n` with `q ≤ n²`. -/
def natCeilSqrt (q : ℚ) : ℕ :=
  if q ≤ 0 then 0 else Nat.sqrt (Int.toNat (⌈q⌉ - 1)) + 1

/-- For a positive radicand, `natCeilSqrt q` squares to at least `q` while
its predecessor squares below `q`: it is the least natural whose square
dominates `q`. -/
lemma natCeilSqrt_spec (q : ℚ) (hq : 0 < q) :
    q ≤ (natCeilSqrt q : ℚ) ^ 2 ∧ ((natCeilSqrt q : ℚ) - 1) ^ 2 < q := by
  have hnle : ¬ q ≤ 0 := not_le.mpr hq
  have hc1 : (1 : ℤ) ≤ ⌈q⌉ := Int.ceil_pos.mpr hq
  have hmz : ((Int.toNat (⌈q⌉ - 1) : ℤ)) = ⌈q⌉ - 1 := Int.toNat_of_nonneg (by omega)
  set m : ℕ := Int.toNat (⌈q⌉ - 1) with hm
  set k : ℕ := Nat.sqrt m with hk
  have hk2 : (k : ℤ) ^ 2 ≤ m := by exact_mod_cast Nat.sqrt_le' m
  have hk3 : (m : ℤ) < (k + 1) ^ 2 := by exact_mod_cast Nat.lt_succ_sqrt' m
  have hval : natCeilSqrt q = k + 1 := by
    rw [natCeilSqrt, if_neg hnle]
  have hcq : ((⌈q⌉ : ℚ)) - 1 < q := by
    have := Int.ceil_lt_add_one q
    push_cast at this
    linarith
  have hqc : q ≤ ((⌈q⌉ : ℚ)) := Int.le_ceil q
  constructor
  · have hineq : (⌈q⌉ : ℤ) ≤ (k + 1) ^ 2 := by omega
    have : ((⌈q⌉ : ℚ)) ≤ (((k : ℚ) + 1)) ^ 2 := by exact_mod_cast hineq
    rw [hval]
    push_cast
    linarith
  · have hineq : ((k : ℤ)) ^ 2 ≤ ⌈q⌉ - 1 := by omega
    have : (((k : ℚ))) ^ 2 ≤ ((⌈q⌉ : ℚ)) - 1 := by exact_mod_cast hineq
    rw [hval]
    push_cast
    linarith

/-- `natCeilSqrt` computed from a bracketing pair, used to evaluate concrete
instances (neither `Nat.sqrt` nor `⌈⌉` reduce in the kernel). -/
lemma natCeilSqrt_eq_of (q : ℚ) (n : ℕ) (hq : 0 < q)
    (h2 : q ≤ (n : ℚ) ^ 2) (h3 : ((n : ℚ) - 1) ^ 2 < q) : natCeilSqrt q = n := by
  obtain ⟨ha, hb⟩ := natCeilSqrt_spec q hq
  by_contra hne
  rcases Nat.lt_or_ge (natCeilSqrt q) n with h | h
  · have hn1 : (natCeilSqrt q : ℚ) ≤ (n : ℚ) - 1 := by
      have h1 : natCeilSqrt q + 1 ≤ n := h
      have h2 : ((natCeilSqrt q : ℚ)) + 1 ≤ (n : ℚ) := by exact_mod_cast h1
      linarith
    have hnn : (0 : ℚ) ≤ (natCeilSqrt q : ℚ) := by positivity
    have : ((n : ℚ) - 1) ^ 2 ≥ q := by nlinarith [ha, hn1, hnn]
    linarith
  · have h' : n < natCeilSqrt q := lt_of_le_of_ne h (fun hh => hne hh.symm)
    have hn1 : (n : ℚ) ≤ (natCeilSqrt q : ℚ) - 1 := by
      have : n + 1 ≤ natCeilSqrt q := h'
      have := (Nat.cast_le (α := ℚ)).mpr this
      push_cast at this
      linarith
    have : q ≤ ((natCeilSqrt q : ℚ) - 1) ^ 2 := by nlinarith [h2, hn1]
    linarith

/-- `natCeilSqrt` agrees with the real ceiling of the real square root, so the
step count of `cells_for_ray` below is exactly the one the source computes. -/
lemma natCeilSqrt_eq (q : ℚ) : (natCeilSqrt q : ℤ) = ⌈Real.sqrt (q : ℝ)⌉ := by
  by_cases hq : q ≤ 0
  · have hq' : (q : ℝ) ≤ 0 := by exact_mod_cast hq
    have h0 : Real.sqrt (q : ℝ) = 0 := by
      simp [Real.sqrt_eq_zero', hq']
    simp [natCeilSqrt, hq, h0]
  · push_neg at hq
    obtain ⟨ha, hb⟩ := natCeilSqrt_spec q hq
    have hpos : 1 ≤ natCeilSqrt q := by
      rw [natCeilSqrt, if_neg (not_le.mpr hq)]
      omega
    have hhigh : Real.sqrt (q : ℝ) ≤ ((natCeilSqrt q : ℝ)) := by
      rw [show ((natCeilSqrt q : ℝ)) = Real.sqrt ((natCeilSqrt q : ℝ) ^ 2) from
        (Real.sqrt_sq (by positivity)).symm]
      apply Real.sqrt_le_sqrt
      exact_mod_cast ha
    have hlow : ((natCeilSqrt q : ℝ)) - 1 < Real.sqrt (q : ℝ) := by
      have h1 : ((natCeilSqrt q : ℝ) - 1) ^ 2 < (q : ℝ) := by exact_mod_cast hb
      have h2 : (0 : ℝ) ≤ (natCeilSqrt q : ℝ) - 1 := by
        have : (1 : ℝ) ≤ (natCeilSqrt q : ℝ) := by exact_mod_cast hpos
        linarith
      calc ((natCeilSqrt q : ℝ)) - 1
          = Real.sqrt (((natCeilSqrt q : ℝ) - 1) ^ 2) := (Real.sqrt_sq h2).symm
        _ < Real.sqrt (q : ℝ) := Real.sqrt_lt_sqrt (by positivity) h1
    symm
    rw [Int.ceil_eq_iff]
    constructor
    · push_cast
      exact hlow
    · push_cast
      exact hhigh

/-- For a positive cell size, the step count `natCeilSqrt ((dx²+dy²)/cs²) + 1`
used by `cells_for_ray` below equals the source's
`(sqrt(dx*dx + dy*dy) / cell_size).ceil() + 1`. -/
lemma natCeilSqrt_div_sq (s cs : ℚ) (hs : 0 ≤ s) (hcs : 0 < cs) :
    (natCeilSqrt (s / cs ^ 2) : ℤ) = ⌈Real.sqrt (s : ℝ) / (cs : ℝ)⌉ := by
  rw [natCeilSqrt_eq]
  congr 1
  have hcs' : (0 : ℝ) < (cs : ℝ) := by exact_mod_cast hcs
  rw [show ((s / cs ^ 2 : ℚ) : ℝ) = (s : ℝ) / ((cs : ℝ)) ^ 2 by push_cast; ring]
  rw [Real.sqrt_div (by exact_mod_cast hs)]
  congr 1
  rw [show ((cs : ℝ)) ^ 2 = (cs : ℝ) * (cs : ℝ) by ring]
  exact Real.sqrt_mul_self hcs'.le

/-- Floor-based grid cell of a point (`(x / cell_size).floor() as i32`). -/
def cellOf (cs : ℚ) (p : Vec2 ℚ) : ℤ × ℤ :=
  (⌊p.1 / cs⌋, ⌊p.2 / cs⌋)

/-- `SpatialGrid::cells_for_edge`: both endpoint cells plus cells sampled at
`steps = ceil(max(|dx|,|dy|) / cell_size) + 1` evenly spaced parameters.
The source collects into a `HashSet`; the embedding keeps the raw list, whose
membership is what every caller uses. -/
def cells_for_edge (s e : Vec2 ℚ) (cs : ℚ) : List (ℤ × ℤ) :=
  let dx := e.1 - s.1
  let dy := e.2 - s.2
  let steps : ℤ := ⌈max |dx| |dy| / cs⌉ + 1
  cellOf cs s :: cellOf cs e ::
    (List.range (steps.toNat + 1)).map (fun i =>
      let t : ℚ := if 0 < steps then (i : ℚ) / (steps : ℚ) else 0
      cellOf cs (s.1 + dx * t, s.2 + dy * t))

/-- `SpatialGrid::cells_for_ray`: cells sampled along the segment at
`steps = ceil(len / cell_size) + 1` evenly spaced parameters, where
`len = sqrt(dx² + dy²)`; for `cell_size > 0` this step count equals
`natCeilSqrt ((dx² + dy²) / cell_size²) + 1` (see `natCeilSqrt_eq`).  The
source deduplicates cells in visit order; membership is unaffected and the
per-edge dedup of `edges_along_ray` makes the cell dedup redundant, so the
embedding keeps the raw sample list. -/
def cells_for_ray (s e : Vec2 ℚ) (cs : ℚ) : List (ℤ × ℤ) :=
  let dx := e.1 - s.1
  let dy := e.2 - s.2
  let steps : ℤ := (natCeilSqrt ((dx ^ 2 + dy ^ 2) / cs ^ 2) : ℤ) + 1
  (List.range (steps.toNat + 1)).map (fun i =>
    let t : ℚ := if 0 < steps then (i : ℚ) / (steps : ℚ) else 0
    cellOf cs (s.1 + dx * t, s.2 + dy * t))

/-- The edges of one polygon, in iteration order
(`for i in 1..points.len()`). -/
def polygonEdges (p : PolygonQ) : List Edge :=
  (p.points.zip p.points.tail).map (fun ab => ⟨ab.1, ab.2⟩)

/-- All level edges in insertion order (`SpatialGrid::new` iteration). -/
def allEdges (polys : List PolygonQ) : List Edge :=
  polys.flatMap polygonEdges

/-- The bucket a built `SpatialGrid` stores for cell `c`: exactly the edges
whose `cells_for_edge` traversal contains `c`, in insertion order. -/
def gridBucket (polys : List PolygonQ) (cs : ℚ) (c : ℤ × ℤ) : List Edge :=
  (allEdges polys).filter (fun ed => decide (c ∈ cells_for_edge ed.start ed.stop cs))

/-- The quantized-endpoint key `((x*1000) as i32, ...)` used to deduplicate
edges; `as i32` truncates toward zero. -/
def ratTrunc (q : ℚ) : ℤ :=
  if 0 ≤ q then ⌊q⌋ else ⌈q⌉

/-- Dedup key of an edge in `edges_along_ray`. -/
def edgeKey (e : Edge) : ℤ × ℤ × ℤ × ℤ :=
  (ratTrunc (e.start.1 * 1000), ratTrunc (e.start.2 * 1000),
   ratTrunc (e.stop.1 * 1000), ratTrunc (e.stop.2 * 1000))

/-- `SpatialGrid::edges_along_ray`: walk the cells along the query segment,
collect each cell's bucket, and deduplicate globally by quantized endpoints. -/
def edges_along_ray (polys : List PolygonQ) (cs : ℚ) (s e : Vec2 ℚ) : List Edge :=
  let step := fun (acc : List (ℤ × ℤ × ℤ × ℤ) × List Edge) (c : ℤ × ℤ) =>
    (gridBucket polys cs c).foldl
      (fun acc ed =>
        if edgeKey ed ∈ acc.1 then acc else (edgeKey ed :: acc.1, acc.2 ++ [ed]))
      acc
  ((cells_for_ray s e cs).foldl step ([], [])).2

/-- Brute-force reference scan: every level edge whose segment intersects the
query segment. -/
def bruteForceEdges (polys : List PolygonQ) (s e : Vec2 ℚ) : List Edge :=
  (allEdges polys).filter (fun ed => (line_intersect ed.start ed.stop s e).isSome)

/-- C3: the sampled cell walk misses cells that a segment only clips near a
corner.  With cell size `1`, the single edge `(0.97, 0.9)-(0.97, 0.99)` lives
only in cell `(0,0)`, the query segment `(2.5, -0.55)-(0.62, 1.33)` crosses
that edge inside cell `(0,0)`, yet `cells_for_ray` samples only cells
`(2,-1), (1,0), (0,1)` — so `edges_along_ray` returns no edge at all while the
brute-force scan finds the intersecting edge.  This contradicts the documented
guarantee of no false negatives. -/
theorem edges_along_ray_false_negative :
    bruteForceEdges [⟨[(97/100, 9/10), (97/100, 99/100)], 1⟩] (5/2, -11/20) (31/50, 133/100)
        = [⟨(97/100, 9/10), (97/100, 99/100)⟩] ∧
      edges_along_ray [⟨[(97/100, 9/10), (97/100, 99/100)], 1⟩] 1 (5/2, -11/20) (31/50, 133/100)
        = [] := by
  have hncs : natCeilSqrt (4418/625 : ℚ) = 3 :=
    natCeilSqrt_eq_of _ 3 (by norm_num) (by norm_num) (by norm_num)
  have hc1 : (⌈|(9 : ℚ)/100|⌉ : ℤ) = 1 := by
    rw [show |(9 : ℚ)/100| = 9/100 by norm_num, Int.ceil_eq_iff]
    norm_num
  have ht2 : ((2 : ℤ)).toNat = 2 := rfl
  have ht4 : ((4 : ℤ)).toNat = 4 := rfl
  have hedge : cells_for_edge (97/100, 9/10) (97/100, 99/100) 1
      = [(0, 0), (0, 0), (0, 0), (0, 0), (0, 0)] := by
    norm_num [cells_for_edge, cellOf, hc1, ht2, List.range_succ]
  have hray : cells_for_ray (5/2, -11/20) (31/50, 133/100) 1
      = [(2, -1), (2, -1), (1, 0), (1, 0), (0, 1)] := by
    norm_num [cells_for_ray, cellOf, hncs, ht4, List.range_succ]
  have hbucket : ∀ c : ℤ × ℤ, c ∉ ([(0, 0)] : List (ℤ × ℤ)) →
      gridBucket [⟨[(97/100, 9/10), (97/100, 99/100)], 1⟩] 1 c = [] := by
    intro c hc
    simp only [gridBucket, allEdges, polygonEdges, List.flatMap_cons, List.flatMap_nil,
      List.zip_cons_cons, List.zip_nil_right, List.map_cons, List.map_nil, List.append_nil,
      List.filter_cons, List.filter_nil]
    have hnot : c ∉ ([(0, 0), (0, 0), (0, 0), (0, 0), (0, 0)] : List (ℤ × ℤ)) := by
      simpa using hc
    simp [hedge, hnot]
    intro h0
    exact absurd (by rw [h0]; simp [Prod.ext_iff]) hc
  have hb1 := hbucket (2, -1) (by norm_num)
  have hb2 := hbucket (1, 0) (by norm_num)
  have hb3 := hbucket (0, 1) (by norm_num)
  constructor
  · norm_num [bruteForceEdges, allEdges, polygonEdges, line_intersect, cross_product,
      List.filter]
  · rw [edges_along_ray, hray]
    simp only [List.foldl_cons, List.foldl_nil, hb1, hb2, hb3]

/-! ## Collision resolver (`src/collisions.rs`)

The collision code takes genuine square roots (`Vec2::normalize`,
`normalize_or_zero`, `distance_sq.sqrt()`).  The definitions stay generic over
the carrier field and take the square-root function as an explicit parameter
`sqrtK`; every claim theorem instantiates `K := ℝ`, `sqrtK := Real.sqrt`. -/

/-- Squared euclidean norm (`Vec2::length_squared`). -/
def len2 (v : Vec2 K) : K :=
  v.1 ^ 2 + v.2 ^ 2

variable (sqrtK : K → K)

/-- bevy `Vec2::normalize_or_zero`: `v / ‖v‖`, and the zero vector when the
input is zero (the float code detects the non-finite division result). -/
def normalize_or_zero (v : Vec2 K) : Vec2 K :=
  if v = 0 then 0 else (sqrtK (len2 v))⁻¹ • v

/-- `find_projection` from `src/collisions.rs`.  `line_vec.normalize()` is
`(sqrt ‖lv‖²)⁻¹ • lv`; on the zero float vector it would produce `NaN` — the
claims only use segments with distinct endpoints. -/
def find_projection (start stop point : Vec2 K) (radius : K) : K × Vec2 K :=
  let point_vec := point - start
  let line_vec := stop - start
  let line_vec_normalized := (sqrtK (len2 line_vec))⁻¹ • line_vec
  let d := dot point_vec line_vec_normalized
  let projection_point := d • line_vec_normalized + start
  if len2 (stop - projection_point) > len2 (stop - start) then
    (len2 point_vec + radius * 2, start)
  else if len2 (projection_point - start) > len2 (stop - start) then
    (len2 (point - stop) + radius * 2, stop)
  else
    (len2 (point - projection_point), projection_point)

/-- `side_of_line_detection`: the sign of the edge/point determinant.
`f32::signum` maps `+0.0` to `1.0`, so an exact zero determinant is sent
to `1`. -/
def side_of_line_detection (line_start line_end point : Vec2 K) : K :=
  let determinant := (line_end.1 - line_start.1) * (point.2 - line_start.2) -
    (line_end.2 - line_start.2) * (point.1 - line_start.1)
  if determinant < 0 then -1 else 1

/-- The long fixed ray cast from the entity position in `s_collision`:
`translation + Vec2::new(2.0, 1.0) * 10000.0`. -/
def collisionRayEnd (trans : Vec2 K) : Vec2 K :=
  trans + ((2 : K) * 10000, (1 : K) * 10000)

/-- Mutable loop state of the inner edge loop of `s_collision`. -/
structure EdgeLoopState (K : Type) where
  counter : ℕ
  colliding : Bool
  adjustment : Vec2 K
  newNormal : Vec2 K

/-- One iteration of the inner edge loop of `s_collision`
(`for line_index in 1..polygon.points.len()`), for the edge `se`.
Mirrors the source statement for statement: the ray-intersection counter is
incremented *before* the `previous_side_of_line` filter `continue`s, so every
crossed edge counts; only the touching/colliding work is gated by the
filter. -/
def collideEdgeStep (trans prev : Vec2 K) (radius cside : K)
    (st : EdgeLoopState K) (se : Vec2 K × Vec2 K) : EdgeLoopState K :=
  let counter' :=
    if (line_intersect se.1 se.2 trans (collisionRayEnd trans)).isSome then
      st.counter + 1
    else
      st.counter
  if side_of_line_detection se.1 se.2 prev ≠ cside then
    { st with counter := counter' }
  else
    let fp := find_projection sqrtK se.1 se.2 trans radius
    let distance_sq := fp.1
    let projection := fp.2
    let colliding_with_line := decide (distance_sq ≤ radius ^ 2)
    let touching_line := decide (distance_sq ≤ (radius + 1/2) ^ 2)
    let newNormal' :=
      if touching_line then
        st.newNormal - normalize_or_zero sqrtK (trans - projection)
      else
        st.newNormal
    let delta := (radius - sqrtK distance_sq) • normalize_or_zero sqrtK (trans - projection)
    let adjustment' :=
      if colliding_with_line then
        ((if |delta.1| > |st.adjustment.1| then delta.1 else st.adjustment.1),
         (if |delta.2| > |st.adjustment.2| then delta.2 else st.adjustment.2))
      else
        st.adjustment
    { counter := counter', colliding := st.colliding || colliding_with_line,
      adjustment := adjustment', newNormal := newNormal' }

/-- The consecutive-point edge list of a polygon, as iterated by
`s_collision`. -/
def edgePairs (pts : List (Vec2 K)) : List (Vec2 K × Vec2 K) :=
  pts.zip pts.tail

/-- One iteration of the outer polygon loop of `s_collision`.  The running
accumulator is `(translation, adjustment, new_normal)`; the tunneling guard
teleports the translation back to `prev` when the polygon was penetrated and
the ray parity is odd. -/
def collidePolygon (prev : Vec2 K) (radius : K)
    (acc : Vec2 K × Vec2 K × Vec2 K) (poly : Polygon K) : Vec2 K × Vec2 K × Vec2 K :=
  let trans := acc.1
  let st := (edgePairs poly.points).foldl
    (collideEdgeStep sqrtK trans prev radius poly.collision_side)
    ⟨0, false, acc.2.1, acc.2.2⟩
  let trans' := if st.colliding && st.counter % 2 == 1 then prev else trans
  (trans', st.adjustment, st.newNormal)

/-- The per-entity physics state (`Physics` component in `src/main.rs`). -/
structure Physics (K : Type) where
  prev_position : Vec2 K
  velocity : Vec2 K
  acceleration : Vec2 K
  radius : K
  normal : Vec2 K

/-- The accumulator `(translation, adjustment, new_normal)` after the polygon
loop of `s_collision` for one entity. -/
def s_collision_acc (polys : List (Polygon K)) (trans : Vec2 K) (ph : Physics K) :
    Vec2 K × Vec2 K × Vec2 K :=
  polys.foldl (collidePolygon sqrtK ph.prev_position ph.radius) (trans, 0, 0)

/-- One run of `s_collision` for one entity: the polygon loop, then the
normal/velocity update and the positional correction.  Note the source sets
`physics.normal` to the *normalized* accumulated normal but projects the
velocity with the *raw* accumulated normal `new_normal`.  Returns
`(translation, physics)`; the `z` component of the translation (constant `0`)
is dropped. -/
def s_collision (polys : List (Polygon K)) (trans : Vec2 K) (ph : Physics K) :
    Vec2 K × Physics K :=
  let acc := s_collision_acc sqrtK polys trans ph
  let newNormal := acc.2.2
  (acc.1 + acc.2.1,
   { ph with
      normal := normalize_or_zero sqrtK newNormal,
      velocity := ph.velocity - dot ph.velocity newNormal • newNormal })

/-! ### Properties of `find_projection` -/

lemma len2_pos (v : Vec2 ℝ) (hv : v ≠ 0) : 0 < len2 v := by
  rcases v with ⟨x, y⟩
  have h : x ≠ 0 ∨ y ≠ 0 := by
    by_contra hc
    push_neg at hc
    exact hv (by simp [Prod.ext_iff, hc.1, hc.2])
  rcases h with h | h
  · have : 0 < x ^ 2 := by positivity
    have h2 : 0 ≤ y ^ 2 := sq_nonneg y
    simp only [len2]
    linarith
  · have : 0 < y ^ 2 := by positivity
    have h2 : 0 ≤ x ^ 2 := sq_nonneg x
    simp only [len2]
    linarith

lemma len2_smul (c : ℝ) (v : Vec2 ℝ) : len2 (c • v) = c ^ 2 * len2 v := by
  rcases v with ⟨x, y⟩
  simp only [len2, Prod.smul_mk, smul_eq_mul]
  ring

lemma dot_smul_right (a : Vec2 ℝ) (c : ℝ) (b : Vec2 ℝ) :
    dot a (c • b) = c * dot a b := by
  rcases a with ⟨ax, ay⟩
  rcases b with ⟨bx, by'⟩
  simp only [dot, Prod.smul_mk, smul_eq_mul]
  ring

/-- The clamping branches of `find_projection`, phrased through the segment
parameter `s = (p-start)·lv / ‖lv‖²` of the orthogonal foot: the first branch
fires for `s < 0` or `2 < s` and returns `start`, the second for `1 < s ≤ 2`
and returns `stop`, both inflating the reported squared distance by
`radius * 2`; otherwise the interior foot and its true squared distance are
returned. -/
lemma find_projection_cases (start stop p : Vec2 ℝ) (r : ℝ) (hne : start ≠ stop) :
    find_projection Real.sqrt start stop p r =
      (if dot (p - start) (stop - start) / len2 (stop - start) < 0 ∨
          2 < dot (p - start) (stop - start) / len2 (stop - start) then
        (len2 (p - start) + r * 2, start)
      else if 1 < dot (p - start) (stop - start) / len2 (stop - start) then
        (len2 (p - stop) + r * 2, stop)
      else
        (len2 (p - ((dot (p - start) (stop - start) / len2 (stop - start)) • (stop - start) + start)),
         (dot (p - start) (stop - start) / len2 (stop - start)) • (stop - start) + start)) := by
  have hlv : stop - start ≠ 0 := sub_ne_zero.mpr (Ne.symm hne)
  have hL : 0 < len2 (stop - start) := len2_pos _ hlv
  have hLne : len2 (stop - start) ≠ 0 := ne_of_gt hL
  have hsq : Real.sqrt (len2 (stop - start)) * Real.sqrt (len2 (stop - start))
      = len2 (stop - start) := Real.mul_self_sqrt hL.le
  have hsne : Real.sqrt (len2 (stop - start)) ≠ 0 :=
    ne_of_gt (Real.sqrt_pos.mpr hL)
  set L := len2 (stop - start) with hLdef
  set s := dot (p - start) (stop - start) / L with hsdef
  have hproj :
      dot (p - start) ((Real.sqrt L)⁻¹ • (stop - start)) •
          ((Real.sqrt L)⁻¹ • (stop - start)) + start
        = s • (stop - start) + start := by
    rw [dot_smul_right, smul_smul, hsdef]
    congr 2
    calc (Real.sqrt L)⁻¹ * dot (p - start) (stop - start) * (Real.sqrt L)⁻¹
        = dot (p - start) (stop - start) * (Real.sqrt L * Real.sqrt L)⁻¹ := by
          rw [mul_inv]
          ring
      _ = dot (p - start) (stop - start) / L := by
          rw [hsq, div_eq_mul_inv]
  rw [find_projection]
  simp only [hproj]
  have hc1 : len2 (stop - (s • (stop - start) + start)) = (1 - s) ^ 2 * L := by
    have hv : stop - (s • (stop - start) + start) = (1 - s) • (stop - start) := by
      rw [sub_smul, one_smul]
      abel
    rw [hv, len2_smul]
  have hc2 : len2 ((s • (stop - start) + start) - start) = s ^ 2 * L := by
    have hv : (s • (stop - start) + start) - start = s • (stop - start) := by
      abel
    rw [hv, len2_smul]
  rw [hc1, hc2]
  by_cases h1 : s < 0 ∨ 2 < s
  · rw [if_pos, if_pos h1]
    have : 1 < (1 - s) ^ 2 := by
      rcases h1 with h | h
      · nlinarith
      · nlinarith
    nlinarith
  · rw [if_neg, if_neg h1]
    · push_neg at h1
      by_cases h2 : 1 < s
      · rw [if_pos, if_pos h2]
        have : 1 < s ^ 2 := by nlinarith
        nlinarith
      · rw [if_neg, if_neg h2]
        push_neg at h2
        have : ¬ 1 < s ^ 2 := by nlinarith
        intro hcon
        exact this (by nlinarith [hcon])
    · push_neg at h1
      have : ¬ 1 < (1 - s) ^ 2 := by nlinarith
      intro hcon
      exact this (by nlinarith [hcon])

lemma len2_sub_smul (pv lv : Vec2 ℝ) (t : ℝ) :
    len2 (pv - t • lv) = len2 pv - 2 * t * dot pv lv + t ^ 2 * len2 lv := by
  rcases pv with ⟨a, b⟩
  rcases lv with ⟨c, d⟩
  simp only [len2, dot, Prod.smul_mk, Prod.mk_sub_mk, smul_eq_mul]
  ring

/-- C7 (amended): for `start ≠ stop`, with `s` the segment parameter of the
orthogonal foot: when `0 ≤ s ≤ 1` the function returns the interior foot with
its true squared distance, and that point minimizes the squared distance over
the whole segment; when the foot falls outside, an endpoint is returned
(`start` for `s < 0` or `2 < s` — so for `2 < s` the *far* endpoint — and
`stop` for `1 < s ≤ 2`), with the reported squared distance to that endpoint
inflated by `radius * 2`. -/
theorem find_projection_nearest (start stop p : Vec2 ℝ) (r : ℝ) (hne : start ≠ stop) :
    (0 ≤ dot (p - start) (stop - start) / len2 (stop - start) ∧
        dot (p - start) (stop - start) / len2 (stop - start) ≤ 1 →
      (find_projection Real.sqrt start stop p r
          = (len2 (p - ((dot (p - start) (stop - start) / len2 (stop - start)) • (stop - start) + start)),
             (dot (p - start) (stop - start) / len2 (stop - start)) • (stop - start) + start)) ∧
      ∀ t : ℝ, 0 ≤ t → t ≤ 1 →
        len2 (p - ((dot (p - start) (stop - start) / len2 (stop - start)) • (stop - start) + start))
          ≤ len2 (p - (t • (stop - start) + start))) ∧
    (dot (p - start) (stop - start) / len2 (stop - start) < 0 ∨
        2 < dot (p - start) (stop - start) / len2 (stop - start) →
      find_projection Real.sqrt start stop p r = (len2 (p - start) + r * 2, start)) ∧
    (1 < dot (p - start) (stop - start) / len2 (stop - start) ∧
        dot (p - start) (stop - start) / len2 (stop - start) ≤ 2 →
      find_projection Real.sqrt start stop p r = (len2 (p - stop) + r * 2, stop)) := by
  have hlv : stop - start ≠ 0 := sub_ne_zero.mpr (Ne.symm hne)
  have hL : 0 < len2 (stop - start) := len2_pos _ hlv
  have hLne : len2 (stop - start) ≠ 0 := ne_of_gt hL
  rw [find_projection_cases start stop p r hne]
  set L := len2 (stop - start) with hLdef
  set s := dot (p - start) (stop - start) / L with hsdef
  have hBs : dot (p - start) (stop - start) = s * L := by
    rw [hsdef]
    field_simp
  refine ⟨?_, ?_, ?_⟩
  · rintro ⟨hs0, hs1⟩
    have hno1 : ¬ (s < 0 ∨ 2 < s) := by
      push_neg
      constructor <;> linarith
    have hno2 : ¬ 1 < s := by linarith
    rw [if_neg hno1, if_neg hno2]
    refine ⟨rfl, ?_⟩
    intro t ht0 ht1
    have hrw : ∀ u : ℝ, p - (u • (stop - start) + start) = (p - start) - u • (stop - start) := by
      intro u
      abel
    rw [hrw s, hrw t, len2_sub_smul, len2_sub_smul, hBs]
    nlinarith [sq_nonneg (t - s), hL]
  · intro h1
    rw [if_pos h1]
  · rintro ⟨h1, h2⟩
    have hno1 : ¬ (s < 0 ∨ 2 < s) := by
      push_neg
      constructor <;> linarith
    rw [if_neg hno1, if_pos h1]

/-- C7 counterexample: for the segment `(0,0)-(1,0)` and the point `(2,1)`
with radius `1`, the nearest segment point is the endpoint `(1,0)` at squared
distance `2`, but `find_projection` reports squared distance `4` — the
endpoint branch inflates the true squared distance by `radius * 2`. -/
theorem find_projection_counterexample :
    find_projection Real.sqrt ((0 : ℝ), (0 : ℝ)) (1, 0) (2, 1) 1 = (4, (1, 0)) ∧
      len2 (((2 : ℝ), (1 : ℝ)) - (1, 0)) = 2 ∧ ((4 : ℝ)) ≠ 2 := by
  refine ⟨?_, by norm_num [len2, Prod.mk_sub_mk], by norm_num⟩
  rw [find_projection_cases _ _ _ _ (by norm_num [Prod.ext_iff])]
  norm_num [dot, len2, Prod.mk_sub_mk]

/-- Witness for `find_projection_nearest`: the interior case at a concrete
input, with the foot at the parameter `s = 0` and true squared distance 1. -/
theorem find_projection_nearest_witness :
    find_projection Real.sqrt ((0 : ℝ), (0 : ℝ)) (1, 0) (0, 1) (1/2) = (1, (0, 0)) := by
  have hne : ((0 : ℝ), (0 : ℝ)) ≠ (1, 0) := by norm_num [Prod.ext_iff]
  have hs : dot (((0 : ℝ), (1 : ℝ)) - (0, 0)) (((1 : ℝ), (0 : ℝ)) - (0, 0)) /
      len2 (((1 : ℝ), (0 : ℝ)) - (0, 0)) = 0 := by
    norm_num [dot, len2, Prod.mk_sub_mk]
  have h := ((find_projection_nearest (0, 0) (1, 0) (0, 1) (1/2) hne).1
    (by rw [hs]; norm_num)).1
  rw [hs] at h
  rw [h]
  norm_num [len2, Prod.mk_sub_mk, Prod.smul_mk, Prod.ext_iff]

/-- C10: one run of `s_collision` leaves `prev_position`, `radius` and
`acceleration` untouched; only the translation, the velocity and the normal
are written. -/
theorem s_collision_frame (polys : List (Polygon ℝ)) (trans : Vec2 ℝ) (ph : Physics ℝ) :
    ((s_collision Real.sqrt polys trans ph).2.prev_position = ph.prev_position) ∧
    ((s_collision Real.sqrt polys trans ph).2.radius = ph.radius) ∧
    ((s_collision Real.sqrt polys trans ph).2.acceleration = ph.acceleration) := by
  simp [s_collision]

/-! ### The tunneling guard of `s_collision` (C2) -/

/-- Number of polygon edges crossed by the fixed collision ray — with **no**
side-of-line filtering, as the source increments the counter before the
filter's `continue`. -/
def rayCrossCount (trans : Vec2 K) (pts : List (Vec2 K)) : ℕ :=
  ((edgePairs pts).filter
    (fun se => (line_intersect se.1 se.2 trans (collisionRayEnd trans)).isSome)).length

/-- The claim's version of the parity counter (modelled from the claim
wording, for refutation): only edges passing the `collision_side` filter at
`prev` may count. -/
def claimFilteredCrossCount (prev trans : Vec2 K) (cside : K) (pts : List (Vec2 K)) : ℕ :=
  ((edgePairs pts).filter
    (fun se => decide (side_of_line_detection se.1 se.2 prev = cside) &&
      (line_intersect se.1 se.2 trans (collisionRayEnd trans)).isSome)).length

/-- The polygon has a side-eligible edge whose clamped distance to the entity
is within the collision radius. -/
def polygonPenetrates (prev trans : Vec2 K) (radius cside : K) (pts : List (Vec2 K)) : Prop :=
  ∃ se ∈ edgePairs pts, side_of_line_detection se.1 se.2 prev = cside ∧
    (find_projection sqrtK se.1 se.2 trans radius).1 ≤ radius ^ 2

instance decPolygonPenetrates (prev trans : Vec2 K) (radius cside : K)
    (pts : List (Vec2 K)) :
    Decidable (polygonPenetrates sqrtK prev trans radius cside pts) := by
  unfold polygonPenetrates
  infer_instance

lemma collideEdgeStep_counter (trans prev : Vec2 K) (radius cside : K)
    (st : EdgeLoopState K) (se : Vec2 K × Vec2 K) :
    (collideEdgeStep sqrtK trans prev radius cside st se).counter =
      if (line_intersect se.1 se.2 trans (collisionRayEnd trans)).isSome then
        st.counter + 1
      else
        st.counter := by
  simp only [collideEdgeStep]
  split_ifs <;> rfl

lemma collideEdgeStep_colliding (trans prev : Vec2 K) (radius cside : K)
    (st : EdgeLoopState K) (se : Vec2 K × Vec2 K) :
    ((collideEdgeStep sqrtK trans prev radius cside st se).colliding = true ↔
      st.colliding = true ∨ (side_of_line_detection se.1 se.2 prev = cside ∧
        (find_projection sqrtK se.1 se.2 trans radius).1 ≤ radius ^ 2)) := by
  rw [collideEdgeStep]
  by_cases h : side_of_line_detection se.1 se.2 prev ≠ cside
  · rw [if_pos h]
    simp only []
    constructor
    · intro hc
      exact Or.inl hc
    · rintro (hc | ⟨heq, _⟩)
      · exact hc
      · exact absurd heq h
  · rw [if_neg h]
    push_neg at h
    simp [h]

lemma foldl_collide_counter (trans prev : Vec2 K) (radius cside : K)
    (edges : List (Vec2 K × Vec2 K)) (st : EdgeLoopState K) :
    (edges.foldl (collideEdgeStep sqrtK trans prev radius cside) st).counter =
      st.counter +
        (edges.filter
          (fun se => (line_intersect se.1 se.2 trans (collisionRayEnd trans)).isSome)).length := by
  induction edges generalizing st with
  | nil => simp
  | cons e es ih =>
    rw [List.foldl_cons, ih, List.filter_cons, collideEdgeStep_counter]
    by_cases h : (line_intersect e.1 e.2 trans (collisionRayEnd trans)).isSome
    · rw [if_pos h]
      simp [h]
      omega
    · rw [if_neg h]
      simp [h]

lemma foldl_collide_colliding (trans prev : Vec2 K) (radius cside : K)
    (edges : List (Vec2 K × Vec2 K)) (st : EdgeLoopState K) :
    ((edges.foldl (collideEdgeStep sqrtK trans prev radius cside) st).colliding = true ↔
      st.colliding = true ∨ ∃ se ∈ edges, side_of_line_detection se.1 se.2 prev = cside ∧
        (find_projection sqrtK se.1 se.2 trans radius).1 ≤ radius ^ 2) := by
  induction edges generalizing st with
  | nil => simp
  | cons e es ih =>
    rw [List.foldl_cons, ih, collideEdgeStep_colliding]
    constructor
    · rintro ((hc | he) | hes)
      · exact Or.inl hc
      · exact Or.inr ⟨e, by simp, he⟩
      · obtain ⟨se, hmem, hse⟩ := hes
        exact Or.inr ⟨se, by simp [hmem], hse⟩
    · rintro (hc | ⟨se, hmem, hse⟩)
      · exact Or.inl (Or.inl hc)
      · rcases List.mem_cons.mp hmem with rfl | hmem'
        · exact Or.inl (Or.inr hse)
        · exact Or.inr ⟨se, hmem', hse⟩

/-- C2 (amended): in each polygon pass of `s_collision`, the intersection
counter counts **every** edge crossed by the fixed ray — edges failing the
`collision_side` filter still count, because the counter is incremented
before the filter's `continue` — and the teleport back to `prev` happens
exactly when some side-eligible edge is penetrated and that unfiltered count
is odd. -/
theorem collidePolygon_teleport (sqrtK : K → K) (prev : Vec2 K) (radius : K)
    (acc : Vec2 K × Vec2 K × Vec2 K) (poly : Polygon K) :
    (collidePolygon sqrtK prev radius acc poly).1 =
      if polygonPenetrates sqrtK prev acc.1 radius poly.collision_side poly.points ∧
          rayCrossCount acc.1 poly.points % 2 = 1 then
        prev
      else
        acc.1 := by
  rw [collidePolygon]
  simp only []
  set st := (edgePairs poly.points).foldl
    (collideEdgeStep sqrtK acc.1 prev radius poly.collision_side)
    ⟨0, false, acc.2.1, acc.2.2⟩ with hst
  have hcnt : st.counter = rayCrossCount acc.1 poly.points := by
    rw [hst, foldl_collide_counter]
    simp [rayCrossCount]
  have hcol : (st.colliding = true ↔
      polygonPenetrates sqrtK prev acc.1 radius poly.collision_side poly.points) := by
    rw [hst, foldl_collide_colliding]
    simp [polygonPenetrates]
  by_cases hc : polygonPenetrates sqrtK prev acc.1 radius poly.collision_side poly.points ∧
      rayCrossCount acc.1 poly.points % 2 = 1
  · rw [if_pos hc, if_pos]
    rw [Bool.and_eq_true, hcol, hcnt]
    exact ⟨hc.1, by simp [hc.2]⟩
  · rw [if_neg hc, if_neg]
    rw [Bool.and_eq_true, hcol, hcnt]
    intro ⟨h1, h2⟩
    exact hc ⟨h1, by simpa using h2⟩

/-- C2 counterexample: for the polygon `[(-1,0),(1,0),(2,2),(2,0)]` with
`collision_side = 1`, entity at `(0, 0.4)` with `prev = (0, 0.3)` and radius
`0.5`: the side-filtered count is `1` (odd) and the entity penetrates the
first edge, so the claim predicts a teleport to `prev`; but the code's
counter counts **all** crossed edges (here `2`, even — the ineligible edge
`(2,2)-(2,0)` is crossed and still counts), so no teleport happens and the
polygon pass leaves the translation at `(0, 0.4) ≠ prev`. -/
theorem tunneling_guard_counterexample :
    claimFilteredCrossCount ((0 : ℝ), 3/10) ((0 : ℝ), 2/5) 1
        [((-1 : ℝ), 0), (1, 0), (2, 2), (2, 0)] = 1 ∧
    polygonPenetrates Real.sqrt ((0 : ℝ), 3/10) ((0 : ℝ), 2/5) (1/2) 1
        [((-1 : ℝ), 0), (1, 0), (2, 2), (2, 0)] ∧
    rayCrossCount ((0 : ℝ), 2/5) [((-1 : ℝ), 0), (1, 0), (2, 2), (2, 0)] = 2 ∧
    (collidePolygon Real.sqrt ((0 : ℝ), 3/10) (1/2) (((0 : ℝ), 2/5), 0, 0)
        ⟨[((-1 : ℝ), 0), (1, 0), (2, 2), (2, 0)], 1⟩).1 = ((0 : ℝ), 2/5) ∧
    ((0 : ℝ), (2 : ℝ)/5) ≠ ((0 : ℝ), 3/10) := by
  have hE : edgePairs [((-1 : ℝ), (0 : ℝ)), (1, 0), (2, 2), (2, 0)] =
      [(((-1 : ℝ), (0 : ℝ)), ((1 : ℝ), (0 : ℝ))),
       (((1 : ℝ), (0 : ℝ)), ((2 : ℝ), (2 : ℝ))),
       (((2 : ℝ), (2 : ℝ)), ((2 : ℝ), (0 : ℝ)))] := rfl
  have hray : collisionRayEnd ((0 : ℝ), 2/5) = (20000, 50002/5) := by
    norm_num [collisionRayEnd, Prod.mk_add_mk, Prod.ext_iff]
  have hli1 : (line_intersect ((-1 : ℝ), 0) (1, 0) ((0 : ℝ), 2/5)
      (20000, 50002/5)).isSome = false := by
    norm_num [line_intersect, cross_product, Prod.mk_sub_mk]
  have hli2 : (line_intersect ((1 : ℝ), 0) (2, 2) ((0 : ℝ), 2/5)
      (20000, 50002/5)).isSome = true := by
    norm_num [line_intersect, cross_product, Prod.mk_sub_mk]
  have hli3 : (line_intersect ((2 : ℝ), 2) (2, 0) ((0 : ℝ), 2/5)
      (20000, 50002/5)).isSome = true := by
    norm_num [line_intersect, cross_product, Prod.mk_sub_mk]
  have hs1 : side_of_line_detection ((-1 : ℝ), 0) (1, 0) ((0 : ℝ), 3/10) = 1 := by
    norm_num [side_of_line_detection]
  have hs2 : side_of_line_detection ((1 : ℝ), 0) (2, 2) ((0 : ℝ), 3/10) = 1 := by
    norm_num [side_of_line_detection]
  have hs3 : side_of_line_detection ((2 : ℝ), 2) (2, 0) ((0 : ℝ), 3/10) = -1 := by
    norm_num [side_of_line_detection]
  have hfp1 : find_projection Real.sqrt ((-1 : ℝ), 0) (1, 0) ((0 : ℝ), 2/5) (1/2)
      = (4/25, (0, 0)) := by
    rw [find_projection_cases _ _ _ _ (by norm_num [Prod.ext_iff])]
    norm_num [dot, len2, Prod.mk_sub_mk, Prod.smul_mk, Prod.mk_add_mk, Prod.ext_iff]
  have hfilter : claimFilteredCrossCount ((0 : ℝ), 3/10) ((0 : ℝ), 2/5) 1
      [((-1 : ℝ), 0), (1, 0), (2, 2), (2, 0)] = 1 := by
    simp only [claimFilteredCrossCount, hE, hray, List.filter_cons, List.filter_nil,
      hli1, hli2, hli3, hs1, hs2, hs3]
    norm_num
  have hrc : rayCrossCount ((0 : ℝ), 2/5) [((-1 : ℝ), 0), (1, 0), (2, 2), (2, 0)] = 2 := by
    simp only [rayCrossCount, hE, hray, List.filter_cons, List.filter_nil,
      hli1, hli2, hli3]
    norm_num
  have hpen : polygonPenetrates Real.sqrt ((0 : ℝ), 3/10) ((0 : ℝ), 2/5) (1/2) 1
      [((-1 : ℝ), 0), (1, 0), (2, 2), (2, 0)] := by
    refine ⟨(((-1 : ℝ), (0 : ℝ)), ((1 : ℝ), (0 : ℝ))), ?_, hs1, ?_⟩
    · rw [hE]
      simp
    · rw [hfp1]
      norm_num
  refine ⟨hfilter, hpen, hrc, ?_, by norm_num [Prod.ext_iff]⟩
  rw [collidePolygon]
  simp only []
  have hcnt : ((edgePairs [((-1 : ℝ), 0), (1, 0), (2, 2), (2, 0)]).foldl
      (collideEdgeStep Real.sqrt ((0 : ℝ), 2/5) ((0 : ℝ), 3/10) (1/2) 1)
      ⟨0, false, 0, 0⟩).counter = 2 := by
    rw [foldl_collide_counter]
    simpa [rayCrossCount] using hrc
  rw [if_neg]
  intro hcond
  rw [Bool.and_eq_true] at hcond
  rw [hcnt] at hcond
  exact absurd hcond.2 (by norm_num)

/-! ### The final velocity update of `s_collision` (C1) -/

lemma dot_velocity_proj (v m : Vec2 ℝ) (hm : len2 m = 1) :
    dot (v - dot v m • m) m = 0 := by
  rcases v with ⟨a, b⟩
  rcases m with ⟨c, d⟩
  simp only [dot, len2, Prod.smul_mk, Prod.mk_sub_mk, smul_eq_mul] at *
  linear_combination (-(a * c) - b * d) * hm

/-- C1 (amended): after the polygon loop, the stored `physics.normal` is the
*normalized* accumulated normal, but the velocity is projected with the *raw*
accumulated normal `m`: `velocity -= (velocity·m)·m`.  Consequently the
post-update velocity is orthogonal to the contact normal exactly in the cases
where the raw accumulated normal happens to be a unit vector (e.g. a single
contact); it is not orthogonal in general. -/
theorem s_collision_velocity_update (polys : List (Polygon ℝ)) (trans : Vec2 ℝ)
    (ph : Physics ℝ) :
    ((s_collision Real.sqrt polys trans ph).2.velocity
        = ph.velocity - dot ph.velocity (s_collision_acc Real.sqrt polys trans ph).2.2 •
            (s_collision_acc Real.sqrt polys trans ph).2.2) ∧
    ((s_collision Real.sqrt polys trans ph).2.normal
        = normalize_or_zero Real.sqrt (s_collision_acc Real.sqrt polys trans ph).2.2) ∧
    (len2 (s_collision_acc Real.sqrt polys trans ph).2.2 = 1 →
      dot ((s_collision Real.sqrt polys trans ph).2.velocity)
        ((s_collision_acc Real.sqrt polys trans ph).2.2) = 0) := by
  refine ⟨rfl, rfl, ?_⟩
  intro hm
  have h1 : (s_collision Real.sqrt polys trans ph).2.velocity
      = ph.velocity - dot ph.velocity (s_collision_acc Real.sqrt polys trans ph).2.2 •
          (s_collision_acc Real.sqrt polys trans ph).2.2 := rfl
  rw [h1]
  exact dot_velocity_proj _ _ hm

/-! Concrete evaluation of one `s_collision` run: level made of the single
wall `(-1,0)-(1,0)` (`collision_side = 1`), entity at `(0, 0.4)` with
`prev = (0, 0.4)`, radius `0.5`, velocity `(0, 1)`. -/

lemma sqrt_four_twentyfifths : Real.sqrt ((4 : ℝ)/25) = 2/5 := by
  rw [show (4 : ℝ)/25 = (2/5) ^ 2 by norm_num, Real.sqrt_sq (by norm_num)]

lemma sqrt_four : Real.sqrt (4 : ℝ) = 2 := by
  rw [show (4 : ℝ) = 2 ^ 2 by norm_num, Real.sqrt_sq (by norm_num)]

lemma sqrt_twentyfive : Real.sqrt (25 : ℝ) = 5 := by
  rw [show (25 : ℝ) = 5 ^ 2 by norm_num, Real.sqrt_sq (by norm_num)]

lemma li_e1_eval : (line_intersect ((-1 : ℝ), 0) (1, 0) ((0 : ℝ), 2/5)
    (collisionRayEnd ((0 : ℝ), 2/5))).isSome = false := by
  norm_num [line_intersect, collisionRayEnd, cross_product, Prod.mk_sub_mk, Prod.mk_add_mk]

lemma side_e1_eval : side_of_line_detection ((-1 : ℝ), 0) (1, 0) ((0 : ℝ), 2/5) = 1 := by
  norm_num [side_of_line_detection]

lemma fp_e1_eval : find_projection Real.sqrt ((-1 : ℝ), 0) (1, 0) ((0 : ℝ), 2/5) (1/2)
    = (4/25, (0, 0)) := by
  rw [find_projection_cases _ _ _ _ (by norm_num [Prod.ext_iff])]
  norm_num [dot, len2, Prod.mk_sub_mk, Prod.smul_mk, Prod.mk_add_mk, Prod.ext_iff]

lemma nz_04_eval : normalize_or_zero Real.sqrt ((0 : ℝ), 2/5) = (0, 1) := by
  rw [normalize_or_zero, if_neg (by norm_num [Prod.ext_iff])]
  rw [show len2 ((0 : ℝ), 2/5) = 4/25 by norm_num [len2], sqrt_four_twentyfifths]
  norm_num [Prod.smul_mk, Prod.ext_iff]

lemma nz_neg2_eval : normalize_or_zero Real.sqrt ((0 : ℝ), -2) = (0, -1) := by
  rw [normalize_or_zero, if_neg (by norm_num [Prod.ext_iff])]
  rw [show len2 ((0 : ℝ), -2) = 4 by norm_num [len2], sqrt_four]
  norm_num [Prod.smul_mk, Prod.ext_iff]

lemma collide_step_e1_first :
    collideEdgeStep Real.sqrt ((0 : ℝ), 2/5) ((0 : ℝ), 2/5) (1/2) 1
      ⟨0, false, 0, 0⟩ (((-1 : ℝ), 0), (1, 0)) = ⟨0, true, (0, 1/10), (0, -1)⟩ := by
  have hcol : decide ((4 : ℝ)/25 ≤ (1/2 : ℝ) ^ 2) = true := decide_eq_true (by norm_num)
  have htch : decide ((4 : ℝ)/25 ≤ ((1/2 : ℝ) + 1/2) ^ 2) = true := decide_eq_true (by norm_num)
  simp only [collideEdgeStep, li_e1_eval, side_e1_eval, fp_e1_eval, hcol, htch]
  norm_num [nz_04_eval, sqrt_four_twentyfifths, sqrt_four, sqrt_twentyfive,
    Prod.mk_sub_mk, Prod.smul_mk, Prod.ext_iff]

lemma collide_step_e1_second :
    collideEdgeStep Real.sqrt ((0 : ℝ), 2/5) ((0 : ℝ), 2/5) (1/2) 1
      ⟨0, false, (0, 1/10), (0, -1)⟩ (((-1 : ℝ), 0), (1, 0))
      = ⟨0, true, (0, 1/10), (0, -2)⟩ := by
  have hcol : decide ((4 : ℝ)/25 ≤ (1/2 : ℝ) ^ 2) = true := decide_eq_true (by norm_num)
  have htch : decide ((4 : ℝ)/25 ≤ ((1/2 : ℝ) + 1/2) ^ 2) = true := decide_eq_true (by norm_num)
  simp only [collideEdgeStep, li_e1_eval, side_e1_eval, fp_e1_eval, hcol, htch]
  norm_num [nz_04_eval, sqrt_four_twentyfifths, sqrt_four, sqrt_twentyfive,
    Prod.mk_sub_mk, Prod.smul_mk, Prod.ext_iff]

lemma collide_poly_P1_first :
    collidePolygon Real.sqrt ((0 : ℝ), 2/5) (1/2) (((0 : ℝ), 2/5), 0, 0)
      ⟨[((-1 : ℝ), 0), (1, 0)], 1⟩ = (((0 : ℝ), 2/5), ((0 : ℝ), 1/10), ((0 : ℝ), -1)) := by
  rw [collidePolygon]
  have hEp : edgePairs [((-1 : ℝ), (0 : ℝ)), (1, 0)] = [(((-1 : ℝ), 0), ((1 : ℝ), 0))] := rfl
  simp only [hEp, List.foldl_cons, List.foldl_nil, Prod.fst, Prod.snd]
  rw [show (⟨0, false, ((((0 : ℝ), 2/5), (0 : Vec2 ℝ), (0 : Vec2 ℝ))).2.1,
      ((((0 : ℝ), 2/5), (0 : Vec2 ℝ), (0 : Vec2 ℝ))).2.2⟩ : EdgeLoopState ℝ)
      = (⟨0, false, 0, 0⟩ : EdgeLoopState ℝ) from rfl]
  rw [collide_step_e1_first]
  norm_num

lemma collide_poly_P1_second :
    collidePolygon Real.sqrt ((0 : ℝ), 2/5) (1/2)
      (((0 : ℝ), 2/5), ((0 : ℝ), 1/10), ((0 : ℝ), -1))
      ⟨[((-1 : ℝ), 0), (1, 0)], 1⟩
      = (((0 : ℝ), 2/5), ((0 : ℝ), 1/10), ((0 : ℝ), -2)) := by
  rw [collidePolygon]
  have hEp : edgePairs [((-1 : ℝ), (0 : ℝ)), (1, 0)] = [(((-1 : ℝ), 0), ((1 : ℝ), 0))] := rfl
  simp only [hEp, List.foldl_cons, List.foldl_nil, Prod.fst, Prod.snd]
  rw [show (⟨0, false, ((((0 : ℝ), 2/5), ((0 : ℝ), 1/10), ((0 : ℝ), -1))).2.1,
      ((((0 : ℝ), 2/5), ((0 : ℝ), 1/10), ((0 : ℝ), -1))).2.2⟩ : EdgeLoopState ℝ)
      = (⟨0, false, (0, 1/10), (0, -1)⟩ : EdgeLoopState ℝ) from rfl]
  rw [collide_step_e1_second]
  norm_num

lemma acc_single_wall :
    s_collision_acc Real.sqrt [⟨[((-1 : ℝ), 0), (1, 0)], 1⟩] ((0 : ℝ), 2/5)
      ⟨((0 : ℝ), 2/5), (0, 1), (0, 0), 1/2, (0, 0)⟩
      = (((0 : ℝ), 2/5), ((0 : ℝ), 1/10), ((0 : ℝ), -1)) := by
  rw [s_collision_acc]
  simp only [List.foldl_cons, List.foldl_nil]
  exact collide_poly_P1_first

lemma acc_double_wall :
    s_collision_acc Real.sqrt
      [⟨[((-1 : ℝ), 0), (1, 0)], 1⟩, ⟨[((-1 : ℝ), 0), (1, 0)], 1⟩] ((0 : ℝ), 2/5)
      ⟨((0 : ℝ), 2/5), (0, 1), (0, 0), 1/2, (0, 0)⟩
      = (((0 : ℝ), 2/5), ((0 : ℝ), 1/10), ((0 : ℝ), -2)) := by
  rw [s_collision_acc]
  simp only [List.foldl_cons, List.foldl_nil]
  rw [collide_poly_P1_first]
  exact collide_poly_P1_second

/-- C1 counterexample: with two coincident copies of the wall `(-1,0)-(1,0)`,
the accumulated normal is `(0,-2)` (two touching contacts), the stored normal
is the normalized `(0,-1) ≠ 0`, and the updated velocity
`(0,1) - ((0,1)·(0,-2))·(0,-2) = (0,-3)` has dot product `3 ≠ 0` with the
contact normal — the wall-sliding projection uses the raw accumulated normal,
not the unit one, so the claimed orthogonality fails. -/
theorem velocity_projection_counterexample :
    ((s_collision Real.sqrt
        [⟨[((-1 : ℝ), 0), (1, 0)], 1⟩, ⟨[((-1 : ℝ), 0), (1, 0)], 1⟩] ((0 : ℝ), 2/5)
        ⟨((0 : ℝ), 2/5), (0, 1), (0, 0), 1/2, (0, 0)⟩).2.normal ≠ 0) ∧
    dot ((s_collision Real.sqrt
        [⟨[((-1 : ℝ), 0), (1, 0)], 1⟩, ⟨[((-1 : ℝ), 0), (1, 0)], 1⟩] ((0 : ℝ), 2/5)
        ⟨((0 : ℝ), 2/5), (0, 1), (0, 0), 1/2, (0, 0)⟩).2.velocity)
      ((s_collision Real.sqrt
        [⟨[((-1 : ℝ), 0), (1, 0)], 1⟩, ⟨[((-1 : ℝ), 0), (1, 0)], 1⟩] ((0 : ℝ), 2/5)
        ⟨((0 : ℝ), 2/5), (0, 1), (0, 0), 1/2, (0, 0)⟩).2.normal) ≠ 0 := by
  have hnm : (s_collision Real.sqrt
      [⟨[((-1 : ℝ), 0), (1, 0)], 1⟩, ⟨[((-1 : ℝ), 0), (1, 0)], 1⟩] ((0 : ℝ), 2/5)
      ⟨((0 : ℝ), 2/5), (0, 1), (0, 0), 1/2, (0, 0)⟩).2.normal = (0, -1) := by
    show normalize_or_zero Real.sqrt
      (s_collision_acc Real.sqrt _ _ _).2.2 = ((0 : ℝ), -1)
    rw [acc_double_wall]
    exact nz_neg2_eval
  have hv : (s_collision Real.sqrt
      [⟨[((-1 : ℝ), 0), (1, 0)], 1⟩, ⟨[((-1 : ℝ), 0), (1, 0)], 1⟩] ((0 : ℝ), 2/5)
      ⟨((0 : ℝ), 2/5), (0, 1), (0, 0), 1/2, (0, 0)⟩).2.velocity = (0, -3) := by
    show ((0 : ℝ), (1 : ℝ)) - dot ((0 : ℝ), (1 : ℝ))
        (s_collision_acc Real.sqrt _ _ _).2.2 • (s_collision_acc Real.sqrt _ _ _).2.2
      = ((0 : ℝ), -3)
    rw [acc_double_wall]
    norm_num [dot, Prod.smul_mk, Prod.mk_sub_mk, Prod.ext_iff]
  rw [hnm, hv]
  norm_num [dot, Prod.ext_iff]

/-- Witness for `s_collision_velocity_update`: for the single-wall run the
accumulated normal is the unit vector `(0,-1)` and the post-update velocity is
orthogonal to it. -/
theorem s_collision_velocity_update_witness :
    len2 (s_collision_acc Real.sqrt [⟨[((-1 : ℝ), 0), (1, 0)], 1⟩] ((0 : ℝ), 2/5)
        ⟨((0 : ℝ), 2/5), (0, 1), (0, 0), 1/2, (0, 0)⟩).2.2 = 1 ∧
    dot ((s_collision Real.sqrt [⟨[((-1 : ℝ), 0), (1, 0)], 1⟩] ((0 : ℝ), 2/5)
        ⟨((0 : ℝ), 2/5), (0, 1), (0, 0), 1/2, (0, 0)⟩).2.velocity)
      ((s_collision_acc Real.sqrt [⟨[((-1 : ℝ), 0), (1, 0)], 1⟩] ((0 : ℝ), 2/5)
        ⟨((0 : ℝ), 2/5), (0, 1), (0, 0), 1/2, (0, 0)⟩).2.2) = 0 := by
  have hlen : len2 (s_collision_acc Real.sqrt [⟨[((-1 : ℝ), 0), (1, 0)], 1⟩] ((0 : ℝ), 2/5)
      ⟨((0 : ℝ), 2/5), (0, 1), (0, 0), 1/2, (0, 0)⟩).2.2 = 1 := by
    rw [acc_single_wall]
    norm_num [len2]
  exact ⟨hlen, (s_collision_velocity_update [⟨[((-1 : ℝ), 0), (1, 0)], 1⟩] ((0 : ℝ), 2/5)
    ⟨((0 : ℝ), 2/5), (0, 1), (0, 0), 1/2, (0, 0)⟩).2.2 hlen⟩

/-! ## Steering controller (`src/main.rs` and `src/ai/flee.rs`)

The repository carries two variants of `s_flee_ai_movement`: the one compiled
into the binary in `src/main.rs`, and the spatial-grid rewrite in
`src/ai/flee.rs`.  Both are embedded; the claims cite both. -/

/-- Blend update of `s_flee_ai_movement` in `src/main.rs` (lines 235-242):
`max_distance = 400`, `min_distance = 200`; the visible branch is
`((distance - 200) / (400 - 200)).max(0.0)` — clamped below only. -/
def blendUpdateMain (can_see : Bool) (blend distance dt : K) : K :=
  if !can_see then
    min (blend + dt) 1
  else
    max ((distance - 200) / (400 - 200)) 0

/-- Blend update of `s_flee_ai_movement` in `src/ai/flee.rs` (lines 166-183):
`AI_MAX_DETECTION_DISTANCE = 400`, `AI_MIN_FLEE_DISTANCE = 200`, frame delta
capped at `0.1`, the visible branch clamped to `[0,1]`. -/
def blendUpdateFlee (can_see : Bool) (blend distance dt : K) : K :=
  if !can_see then
    min (blend + min dt (1/10)) 1
  else
    if 0 < (400 - 200 : K) ∧ 200 ≤ distance then
      min (max ((distance - 200) / (400 - 200)) 0) 1
    else if distance < 200 then
      0
    else
      1

/-- C5 (amended): the `flee.rs` blend update keeps the blend in `[0,1]` from
any blend in `[0,1]`, for every distance and nonnegative elapsed time, with
the exact endpoints (distance at or below the near threshold gives exactly
`0`, at or beyond the far threshold exactly `1`); the `main.rs` not-visible
branch is likewise capped at `1` — but the `main.rs` visible branch is only
clamped below and exceeds `1` for visible targets beyond the far threshold
(see the counterexample). -/
theorem blend_unit_interval (can_see : Bool) (b d dt : ℚ)
    (hb0 : 0 ≤ b) (hb1 : b ≤ 1) (hdt : 0 ≤ dt) :
    (0 ≤ blendUpdateFlee can_see b d dt ∧ blendUpdateFlee can_see b d dt ≤ 1) ∧
    (d ≤ 200 → blendUpdateFlee true b d dt = 0) ∧
    (400 ≤ d → blendUpdateFlee true b d dt = 1) ∧
    (0 ≤ blendUpdateMain false b d dt ∧ blendUpdateMain false b d dt ≤ 1) := by
  have hFv : ∀ d' : ℚ, blendUpdateFlee true b d' dt
      = if 0 < (400 - 200 : ℚ) ∧ 200 ≤ d' then
          min (max ((d' - 200) / (400 - 200)) 0) 1
        else if d' < 200 then 0 else 1 := fun d' => rfl
  refine ⟨?_, ?_, ?_, ?_⟩
  · cases can_see with
    | false =>
      rw [show blendUpdateFlee false b d dt = min (b + min dt (1/10)) 1 from rfl]
      have h1 : (0 : ℚ) ≤ min dt (1/10) := le_min hdt (by norm_num)
      exact ⟨le_min (by linarith) (by norm_num), min_le_right _ _⟩
    | true =>
      rw [hFv d]
      split_ifs with h1 h2
      · exact ⟨le_min (le_max_right _ _) (by norm_num), min_le_right _ _⟩
      · norm_num
      · norm_num
  · intro hd
    rw [hFv d]
    rcases lt_or_eq_of_le hd with h | h
    · rw [if_neg (by rintro ⟨_, hge⟩; linarith), if_pos h]
    · rw [if_pos ⟨by norm_num, le_of_eq h.symm⟩, h]
      norm_num
  · intro hd
    rw [hFv d, if_pos ⟨by norm_num, by linarith⟩]
    have h1 : (1 : ℚ) ≤ (d - 200) / (400 - 200) := by
      rw [le_div_iff₀ (by norm_num)]
      linarith
    rw [max_eq_left (by linarith), min_eq_right h1]
  · rw [show blendUpdateMain false b d dt = min (b + dt) 1 from rfl]
    exact ⟨le_min (by linarith) (by norm_num), min_le_right _ _⟩

/-- C5 counterexample: in the `main.rs` update, a visible target at distance
`600` gives blend `(600-200)/200 = 2`, outside `[0,1]` — the visible branch
has no upper clamp. -/
theorem blend_exceeds_one_counterexample :
    blendUpdateMain true (0 : ℚ) 600 0 = 2 ∧ ¬ ((2 : ℚ) ≤ 1) := by
  constructor
  · norm_num [blendUpdateMain]
  · norm_num

/-- Witness for `blend_unit_interval`: concrete visible update at distance
`300` starting from blend `1/2`. -/
theorem blend_unit_interval_witness :
    0 ≤ blendUpdateFlee true (1/2 : ℚ) 300 0 ∧ blendUpdateFlee true (1/2 : ℚ) 300 0 ≤ 1 :=
  (blend_unit_interval true (1/2) 300 0 (by norm_num) (by norm_num) le_rfl).1

/-! ### 16-direction candidate selection (C6) -/

/-- Obstruction test of the `main.rs` selection loop (lines 300-319): some
polygon edge intersects the ray `pos → pos + dir * 100`. -/
def obstructedMain (polys : List (Polygon K)) (pos dir : Vec2 K) : Bool :=
  (polys.flatMap (fun p => edgePairs p.points)).any
    (fun se => (line_intersect se.1 se.2 pos (pos + (100 : K) • dir)).isSome)

/-- Direction selection of `s_flee_ai_movement` in `src/main.rs`
(lines 282-328): sort the candidate directions by decreasing dot product with
the blended heading (stable, as Rust's `sort_by`), take the first
unobstructed one; if every candidate is obstructed, `actual_dir` keeps its
initializer `Vec2::ZERO`. -/
def selectDirMain (polys : List (Polygon K)) (pos blended : Vec2 K)
    (dirs : List (Vec2 K)) : Vec2 K :=
  let sorted := dirs.mergeSort (fun a b => decide (dot b blended ≤ dot a blended))
  match sorted.find? (fun d => !obstructedMain polys pos d) with
  | some d => d
  | none => 0

/-- Obstruction test of the `flee.rs` selection loop: some edge returned by
the spatial-grid query intersects the ray. -/
def obstructedFlee (edges : List (Vec2 K × Vec2 K)) (pos rayEnd : Vec2 K) : Bool :=
  edges.any (fun se => (line_intersect se.1 se.2 pos rayEnd).isSome)

/-- Direction selection of `s_flee_ai_movement` in `src/ai/flee.rs`
(lines 233-281): like the `main.rs` loop, but when every candidate is
obstructed it falls back to `blended_dir.normalize_or_zero()`.  The spatial
grid is abstracted as the function `edgesFor` from the ray end to the queried
edge list (`spatial_grid.edges_along_ray(ai_pos, ray_end)`). -/
def selectDirFlee (edgesFor : Vec2 K → List (Vec2 K × Vec2 K))
    (pos blended : Vec2 K) (dirs : List (Vec2 K)) : Vec2 K :=
  let sorted := dirs.mergeSort (fun a b => decide (dot b blended ≤ dot a blended))
  match sorted.find? (fun d =>
      !obstructedFlee (edgesFor (pos + (100 : K) • d)) pos (pos + (100 : K) • d)) with
  | some d => d
  | none => normalize_or_zero sqrtK blended

/-- The sampled direction at index `k`: angle `k * π/8`
(`get_direction_vectors` / the `angle += PI / 8.0` loop). -/
noncomputable def dirVec (k : ℕ) : Vec2 ℝ :=
  (Real.cos ((k : ℝ) * (Real.pi / 8)), Real.sin ((k : ℝ) * (Real.pi / 8)))

/-- The 16 candidate directions in index order (`DIR_INDICES`,
`(0..16).collect()`). -/
noncomputable def dirs16 : List (Vec2 ℝ) :=
  (List.range 16).map dirVec

lemma selectDirMain_all_obstructed (polys : List (Polygon K)) (pos blended : Vec2 K)
    (dirs : List (Vec2 K)) (h : ∀ d ∈ dirs, obstructedMain polys pos d = true) :
    selectDirMain polys pos blended dirs = 0 := by
  rw [selectDirMain]
  have hfind : (dirs.mergeSort (fun a b => decide (dot b blended ≤ dot a blended))).find?
      (fun d => !obstructedMain polys pos d) = none := by
    rw [List.find?_eq_none]
    intro d hd
    simp [h d (List.mem_mergeSort.mp hd)]
  rw [hfind]

/-- C6 (amended, for the `flee.rs` selection): whenever every candidate
direction is obstructed, the selected steering direction is the normalized
blended heading — which is the zero vector only when the blended heading
itself is zero.  (The `main.rs` selection instead returns the zero vector in
that situation; see the counterexample.) -/
theorem all_obstructed_fallback (edgesFor : Vec2 ℝ → List (Vec2 ℝ × Vec2 ℝ))
    (pos blended : Vec2 ℝ) (dirs : List (Vec2 ℝ))
    (h : ∀ d ∈ dirs,
      obstructedFlee (edgesFor (pos + (100 : ℝ) • d)) pos (pos + (100 : ℝ) • d) = true) :
    selectDirFlee Real.sqrt edgesFor pos blended dirs
      = normalize_or_zero Real.sqrt blended ∧
    (blended ≠ 0 → normalize_or_zero Real.sqrt blended ≠ 0) := by
  constructor
  · rw [selectDirFlee]
    have hfind : (dirs.mergeSort (fun a b => decide (dot b blended ≤ dot a blended))).find?
        (fun d => !obstructedFlee (edgesFor (pos + (100 : ℝ) • d)) pos
          (pos + (100 : ℝ) • d)) = none := by
      rw [List.find?_eq_none]
      intro d hd
      simp [h d (List.mem_mergeSort.mp hd)]
    rw [hfind]
  · intro hb
    rw [normalize_or_zero, if_neg hb]
    have hpos : 0 < len2 blended := len2_pos _ hb
    have hs : 0 < Real.sqrt (len2 blended) := Real.sqrt_pos.mpr hpos
    intro hcon
    have : blended = 0 := by
      have := congrArg (fun v => Real.sqrt (len2 blended) • v) hcon
      simpa [smul_smul, mul_inv_cancel₀ (ne_of_gt hs)] using this
    exact hb this

lemma dirVec_ne_zero (k : ℕ) : dirVec k ≠ 0 := by
  intro h
  have h1 : Real.cos ((k : ℝ) * (Real.pi / 8)) = 0 := congrArg Prod.fst h
  have h2 : Real.sin ((k : ℝ) * (Real.pi / 8)) = 0 := congrArg Prod.snd h
  have := Real.sin_sq_add_cos_sq ((k : ℝ) * (Real.pi / 8))
  rw [h1, h2] at this
  norm_num at this

lemma line_intersect_isSome_of (p1 p2 q1 q2 : Vec2 K)
    (h : cross_product (p2 - p1) (q2 - q1) ≠ 0)
    (h1 : 0 ≤ (interParams p1 p2 q1 q2).1) (h2 : (interParams p1 p2 q1 q2).1 ≤ 1)
    (h3 : 0 ≤ (interParams p1 p2 q1 q2).2) (h4 : (interParams p1 p2 q1 q2).2 ≤ 1) :
    (line_intersect p1 p2 q1 q2).isSome = true := by
  rw [line_intersect_of_ne _ _ _ _ h, if_pos ⟨h1, h2, h3, h4⟩]
  rfl

lemma ray_crosses_horizontal (dx dy : ℝ) (hy : dy ≠ 0) :
    (line_intersect ((-1 : ℝ), 0) (1, 0) ((0 : ℝ), (0 : ℝ))
      (100 * dx, 100 * dy)).isSome = true := by
  have hne : cross_product (((1 : ℝ), (0 : ℝ)) - ((-1 : ℝ), 0))
      (((100 * dx, 100 * dy) : Vec2 ℝ) - ((0 : ℝ), (0 : ℝ))) ≠ 0 := by
    simp only [cross_product, Prod.mk_sub_mk]
    norm_num
    exact hy
  have ht : (interParams ((-1 : ℝ), 0) (1, 0) ((0 : ℝ), (0 : ℝ))
      (100 * dx, 100 * dy)).1 = 1/2 := by
    simp only [interParams, cross_product, Prod.mk_sub_mk]
    norm_num
    rw [div_eq_iff (by norm_num; exact hy)]
    ring
  have hu : (interParams ((-1 : ℝ), 0) (1, 0) ((0 : ℝ), (0 : ℝ))
      (100 * dx, 100 * dy)).2 = 0 := by
    simp only [interParams, cross_product, Prod.mk_sub_mk]
    norm_num
  exact line_intersect_isSome_of _ _ _ _ hne
    (by rw [ht]; norm_num) (by rw [ht]; norm_num)
    (by rw [hu]) (by rw [hu]; norm_num)

lemma ray_crosses_vertical (dx dy : ℝ) (hx : dx ≠ 0) :
    (line_intersect ((0 : ℝ), -1) (0, 1) ((0 : ℝ), (0 : ℝ))
      (100 * dx, 100 * dy)).isSome = true := by
  have hne : cross_product (((0 : ℝ), (1 : ℝ)) - ((0 : ℝ), -1))
      (((100 * dx, 100 * dy) : Vec2 ℝ) - ((0 : ℝ), (0 : ℝ))) ≠ 0 := by
    simp only [cross_product, Prod.mk_sub_mk]
    norm_num
    exact hx
  have ht : (interParams ((0 : ℝ), -1) (0, 1) ((0 : ℝ), (0 : ℝ))
      (100 * dx, 100 * dy)).1 = 1/2 := by
    simp only [interParams, cross_product, Prod.mk_sub_mk]
    norm_num
    rw [div_eq_iff (by norm_num; exact hx)]
    ring
  have hu : (interParams ((0 : ℝ), -1) (0, 1) ((0 : ℝ), (0 : ℝ))
      (100 * dx, 100 * dy)).2 = 0 := by
    simp only [interParams, cross_product, Prod.mk_sub_mk]
    norm_num
  exact line_intersect_isSome_of _ _ _ _ hne
    (by rw [ht]; norm_num) (by rw [ht]; norm_num)
    (by rw [hu]) (by rw [hu]; norm_num)

/-- Any nonzero direction is obstructed by the pair of crossed edges
`(-1,0)-(1,0)` and `(0,-1)-(0,1)` through the entity position `(0,0)`. -/
lemma cross_edges_obstruct (d : Vec2 ℝ) (hd : d ≠ 0) :
    obstructedMain [⟨[((-1 : ℝ), 0), (1, 0)], 0⟩, ⟨[((0 : ℝ), -1), (0, 1)], 0⟩]
      ((0 : ℝ), (0 : ℝ)) d = true := by
  rcases d with ⟨dx, dy⟩
  have hray : ((0 : ℝ), (0 : ℝ)) + (100 : ℝ) • ((dx, dy) : Vec2 ℝ)
      = (100 * dx, 100 * dy) := by
    simp [Prod.smul_mk, Prod.mk_add_mk]
  rw [obstructedMain]
  have hedges : ([⟨[((-1 : ℝ), 0), (1, 0)], 0⟩,
      ⟨[((0 : ℝ), -1), (0, 1)], 0⟩] : List (Polygon ℝ)).flatMap
      (fun p => edgePairs p.points)
      = [(((-1 : ℝ), 0), ((1 : ℝ), 0)), (((0 : ℝ), -1), ((0 : ℝ), 1))] := rfl
  rw [hedges]
  by_cases hy : dy = 0
  · have hx : dx ≠ 0 := by
      intro hx
      exact hd (by simp [Prod.ext_iff, hx, hy])
    simp only [List.any_cons, List.any_nil, hray]
    rw [ray_crosses_vertical dx dy hx]
    simp
  · simp only [List.any_cons, List.any_nil, hray]
    rw [ray_crosses_horizontal dx dy hy]
    simp

/-- C6 counterexample: with every one of the 16 sampled directions obstructed
(two crossed edges through the entity position), the `main.rs` selection
returns the zero vector even though the blended heading `(1,0)` is nonzero
with nonzero normalization — there is no fallback in the `main.rs` loop. -/
theorem all_obstructed_zero_counterexample :
    selectDirMain [⟨[((-1 : ℝ), 0), (1, 0)], 0⟩, ⟨[((0 : ℝ), -1), (0, 1)], 0⟩]
        ((0 : ℝ), (0 : ℝ)) (1, 0) dirs16 = 0 ∧
      normalize_or_zero Real.sqrt ((1 : ℝ), (0 : ℝ)) = (1, 0) ∧
      (((1 : ℝ), (0 : ℝ)) : Vec2 ℝ) ≠ 0 := by
  refine ⟨?_, ?_, by norm_num [Prod.ext_iff]⟩
  · apply selectDirMain_all_obstructed
    intro d hd
    obtain ⟨k, _, rfl⟩ := List.mem_map.mp hd
    exact cross_edges_obstruct _ (dirVec_ne_zero k)
  · rw [normalize_or_zero, if_neg (by norm_num [Prod.ext_iff])]
    rw [show len2 ((1 : ℝ), (0 : ℝ)) = 1 by norm_num [len2]]
    rw [Real.sqrt_one]
    norm_num [Prod.smul_mk, Prod.ext_iff]

/-- Witness for `all_obstructed_fallback`: a single obstructed candidate
direction; the fallback returns the normalized blended heading `(1,0)`. -/
theorem all_obstructed_fallback_witness :
    selectDirFlee Real.sqrt (fun _ => [(((50 : ℝ), -1), ((50 : ℝ), 1))])
        ((0 : ℝ), (0 : ℝ)) (1, 0) [((1 : ℝ), (0 : ℝ))]
      = normalize_or_zero Real.sqrt ((1 : ℝ), (0 : ℝ)) := by
  refine (all_obstructed_fallback (fun _ => [(((50 : ℝ), -1), ((50 : ℝ), 1))])
    ((0 : ℝ), (0 : ℝ)) (1, 0) [((1 : ℝ), (0 : ℝ))] ?_).1
  intro d hd
  rw [List.mem_singleton] at hd
  subst hd
  rw [obstructedFlee]
  have hray : ((0 : ℝ), (0 : ℝ)) + (100 : ℝ) • (((1 : ℝ), (0 : ℝ)) : Vec2 ℝ)
      = (100, 0) := by
    norm_num [Prod.smul_mk, Prod.mk_add_mk, Prod.ext_iff]
  rw [hray]
  have h : (line_intersect ((50 : ℝ), -1) (50, 1) ((0 : ℝ), (0 : ℝ))
      ((100 : ℝ), (0 : ℝ))).isSome = true := by
    norm_num [line_intersect, cross_product, Prod.mk_sub_mk]
  rw [show ((0 : ℝ), (0 : ℝ)) = (0 : Vec2 ℝ) from rfl] at h
  simp [h]

/-! ## Level builder (`src/level.rs`)

`generate_level_polygons` reads the tile grid from a bundled asset; the
embedding takes the parsed grid (`Vec<Vec<u32>>`) as a parameter.  `none`
models the Rust panic: with zero rows, `json_data[0]` aborts with an
index-out-of-bounds panic before any geometry is produced.  Grid accesses are
modelled total with default `0`; every claim uses rectangular grids, where
the two agree (the source would additionally panic on ragged rows). -/

/-- `json_data[y][x]` (total, default `0`). -/
def tileAt (g : List (List ℕ)) (y x : ℕ) : ℕ :=
  (g.getD y []).getD x 0

/-- `json_data[y].len()`. -/
def rowLen (g : List (List ℕ)) (y : ℕ) : ℕ :=
  (g.getD y []).length

/-- Grid corner point `(x * grid_size, y * grid_size)`. -/
def gridPt (gs : ℚ) (x y : ℕ) : Vec2 ℚ :=
  ((x : ℚ) * gs, (y : ℚ) * gs)

/-- The boundary points one tile pushes onto `line_points`, in source order:
squares emit each of the four sides only next to an empty or out-of-bounds
neighbour; right triangles (codes 2-5) emit the hypotenuse unconditionally
plus their two outward axis-aligned sides conditionally; codes 6-9 are
commented out in the source and emit nothing. -/
def emitTile (g : List (List ℕ)) (gs : ℚ) (y x : ℕ) : List (Vec2 ℚ) :=
  let rows := g.length
  match tileAt g y x with
  | 1 =>
    (if x = 0 ∨ tileAt g y (x - 1) = 0 then
      [gridPt gs x y, gridPt gs x (y + 1)] else []) ++
    (if x = rowLen g y - 1 ∨ tileAt g y (x + 1) = 0 then
      [gridPt gs (x + 1) y, gridPt gs (x + 1) (y + 1)] else []) ++
    (if y = 0 ∨ tileAt g (y - 1) x = 0 then
      [gridPt gs x y, gridPt gs (x + 1) y] else []) ++
    (if y = rows - 1 ∨ tileAt g (y + 1) x = 0 then
      [gridPt gs x (y + 1), gridPt gs (x + 1) (y + 1)] else [])
  | 2 =>
    [gridPt gs x y, gridPt gs (x + 1) (y + 1)] ++
    (if y = rows - 1 ∨ tileAt g (y + 1) x = 0 then
      [gridPt gs x (y + 1), gridPt gs (x + 1) (y + 1)] else []) ++
    (if x = 0 ∨ tileAt g y (x - 1) = 0 then
      [gridPt gs x y, gridPt gs x (y + 1)] else [])
  | 3 =>
    [gridPt gs (x + 1) y, gridPt gs x (y + 1)] ++
    (if y = rows - 1 ∨ tileAt g (y + 1) x = 0 then
      [gridPt gs x (y + 1), gridPt gs (x + 1) (y + 1)] else []) ++
    (if x = rowLen g y - 1 ∨ tileAt g y (x + 1) = 0 then
      [gridPt gs (x + 1) y, gridPt gs (x + 1) (y + 1)] else [])
  | 4 =>
    [gridPt gs x (y + 1), gridPt gs (x + 1) y] ++
    (if y = 0 ∨ tileAt g (y - 1) x = 0 then
      [gridPt gs x y, gridPt gs (x + 1) y] else []) ++
    (if x = 0 ∨ tileAt g y (x - 1) = 0 then
      [gridPt gs x y, gridPt gs x (y + 1)] else [])
  | 5 =>
    [gridPt gs (x + 1) (y + 1), gridPt gs x y] ++
    (if y = 0 ∨ tileAt g (y - 1) x = 0 then
      [gridPt gs x y, gridPt gs (x + 1) y] else []) ++
    (if x = rowLen g y - 1 ∨ tileAt g y (x + 1) = 0 then
      [gridPt gs (x + 1) y, gridPt gs (x + 1) (y + 1)] else [])
  | _ => []

/-- The full emission double loop (`for y in 0..size.y`, `for x in
0..size.x`), with `size.x` taken from the first row as in the source. -/
def emitAll (g : List (List ℕ)) (gs : ℚ) : List (Vec2 ℚ) :=
  (List.range g.length).flatMap (fun y =>
    (List.range (g.headD []).length).flatMap (fun x => emitTile g gs y x))

/-- The flat `line_points` vector, viewed as its list of consecutive pairs
(`line_count = line_points.len() / 2`). -/
def toLines : List (Vec2 ℚ) → List (Vec2 ℚ × Vec2 ℚ)
  | a :: b :: rest => (a, b) :: toLines rest
  | _ => []

/-- The double index loop of the weld scan, in `i`-major order. -/
def pairList (n : ℕ) : List (ℕ × ℕ) :=
  (List.range n).flatMap (fun i => (List.range n).map (fun j => (i, j)))

/-- The shared-endpoint chain of the weld scan (lines 420-432): the first of
the four endpoint equalities that holds selects the pair of unique vertices
kept by the merge. -/
def weldSharedChain (l1 l2 : Vec2 ℚ × Vec2 ℚ) : Option (Vec2 ℚ × Vec2 ℚ) :=
  if l1.1 = l2.1 then some (l1.2, l2.2)
  else if l1.1 = l2.2 then some (l1.2, l2.1)
  else if l1.2 = l2.1 then some (l1.1, l2.2)
  else if l1.2 = l2.2 then some (l1.1, l2.1)
  else none

/-- The collinearity test `dot.abs() == 1.0` on the normalized direction
vectors, in exact arithmetic: `(u·v)² = (u·u)(v·v)` with both directions
nonzero (normalizing a zero float vector yields `NaN`, and the comparison
with `1.0` is then false). -/
def weldCollinear (l1 l2 : Vec2 ℚ × Vec2 ℚ) : Bool :=
  decide (l1.1 - l1.2 ≠ 0) && decide (l2.1 - l2.2 ≠ 0) &&
    decide (dot (l1.1 - l1.2) (l2.1 - l2.2) ^ 2 =
      dot (l1.1 - l1.2) (l1.1 - l1.2) * dot (l2.1 - l2.2) (l2.1 - l2.2))

/-- One full scan of the weld pass: the first pair `(i, j)` of distinct lines
sharing an endpoint with collinear directions, together with the unique
vertices of the merged line. -/
def weldScan (ls : List (Vec2 ℚ × Vec2 ℚ)) : Option (ℕ × ℕ × (Vec2 ℚ × Vec2 ℚ)) :=
  (pairList ls.length).findSome? (fun ij =>
    if ij.1 = ij.2 then none
    else
      match ls.get? ij.1, ls.get? ij.2 with
      | some l1, some l2 =>
        match weldSharedChain l1 l2 with
        | some uniq => if weldCollinear l1 l2 then some (ij.1, ij.2, uniq) else none
        | none => none
      | _, _ => none)

/-- One merge of the weld pass: remove both lines (their four vertices, in
descending index order) and push the merged line at the end. -/
def weldMergeStep (ls : List (Vec2 ℚ × Vec2 ℚ)) : Option (List (Vec2 ℚ × Vec2 ℚ)) :=
  match weldScan ls with
  | none => none
  | some (i, j, uniq) => some (((ls.eraseIdx (max i j)).eraseIdx (min i j)) ++ [uniq])

/-- The weld `while` loop, fueled: each merge removes one line, so
`ls.length` iterations always reach the fixpoint. -/
def weldPass : ℕ → List (Vec2 ℚ × Vec2 ℚ) → List (Vec2 ℚ × Vec2 ℚ)
  | 0, ls => ls
  | Nat.succ n, ls =>
    match weldMergeStep ls with
    | none => ls
    | some ls' => weldPass n ls'

/-- The complete weld pass (`while point_removal_data.is_some()`). -/
def weld (ls : List (Vec2 ℚ × Vec2 ℚ)) : List (Vec2 ℚ × Vec2 ℚ) :=
  weldPass ls.length ls

lemma pairList_mem (n i j : ℕ) : (i, j) ∈ pairList n ↔ i < n ∧ j < n := by
  simp [pairList, List.mem_flatMap, List.mem_map, List.mem_range]

lemma weldScan_bounds (ls : List (Vec2 ℚ × Vec2 ℚ)) (i j : ℕ) (uniq : Vec2 ℚ × Vec2 ℚ)
    (h : weldScan ls = some (i, j, uniq)) :
    i < ls.length ∧ j < ls.length ∧ i ≠ j := by
  obtain ⟨ij, hmem, hf⟩ := List.exists_of_findSome?_eq_some h
  by_cases hij : ij.1 = ij.2
  · rw [if_pos hij] at hf
    exact absurd hf (by simp)
  · rw [if_neg hij] at hf
    rcases h1 : ls.get? ij.1 with _ | l1
    · rw [h1] at hf
      exact absurd hf (by simp)
    rcases h2 : ls.get? ij.2 with _ | l2
    · rw [h1, h2] at hf
      exact absurd hf (by simp)
    rw [h1, h2] at hf
    have hf' : (match weldSharedChain l1 l2 with
        | some uniq => if weldCollinear l1 l2 = true then some (ij.1, ij.2, uniq) else none
        | none => none) = some (i, j, uniq) := hf
    rcases h3 : weldSharedChain l1 l2 with _ | uniq'
    · rw [h3] at hf'
      exact absurd hf' (by simp)
    rw [h3] at hf'
    have hf2 : (if weldCollinear l1 l2 = true then some (ij.1, ij.2, uniq') else none)
        = some (i, j, uniq) := hf'
    by_cases h4 : weldCollinear l1 l2
    · rw [if_pos h4] at hf2
      obtain ⟨hi, hj, _⟩ : ij.1 = i ∧ ij.2 = j ∧ uniq' = uniq := by
        have := Option.some.inj hf2
        exact ⟨congrArg (fun t => t.1) this, congrArg (fun t => t.2.1) this,
          congrArg (fun t => t.2.2) this⟩
      subst hi
      subst hj
      refine ⟨?_, ?_, hij⟩
      · obtain ⟨hlt, -⟩ := List.get?_eq_some.mp h1
        exact hlt
      · obtain ⟨hlt, -⟩ := List.get?_eq_some.mp h2
        exact hlt
    · rw [if_neg h4] at hf2
      exact absurd hf2 (by simp)

lemma weldMergeStep_length (ls ls' : List (Vec2 ℚ × Vec2 ℚ))
    (h : weldMergeStep ls = some ls') : ls'.length + 1 = ls.length := by
  rw [weldMergeStep] at h
  rcases hscan : weldScan ls with _ | ⟨i, j, uniq⟩
  · rw [hscan] at h
    exact absurd h (by simp)
  · rw [hscan] at h
    have h' : some (((ls.eraseIdx (max i j)).eraseIdx (min i j)) ++ [uniq]) = some ls' := h
    obtain ⟨hi, hj, hij⟩ := weldScan_bounds ls i j uniq hscan
    have hmax : max i j < ls.length := max_lt_iff.mpr ⟨hi, hj⟩
    have hmin1 : min i j < max i j := min_lt_max.mpr hij
    have h1 : (ls.eraseIdx (max i j)).length = ls.length - 1 := by
      rw [List.length_eraseIdx, if_pos hmax]
    have hmin : min i j < (ls.eraseIdx (max i j)).length := by
      rw [h1]
      omega
    have h2 : ((ls.eraseIdx (max i j)).eraseIdx (min i j)).length = ls.length - 2 := by
      rw [List.length_eraseIdx, if_pos hmin, h1]
      omega
    have := Option.some.inj h'
    rw [← this]
    simp only [List.length_append, List.length_cons, List.length_nil, h2]
    omega

lemma weldPass_fix (n : ℕ) (ls : List (Vec2 ℚ × Vec2 ℚ)) (h : ls.length ≤ n) :
    weldScan (weldPass n ls) = none := by
  induction n generalizing ls with
  | zero =>
    have hnil : ls = [] := List.length_eq_zero.mp (Nat.le_zero.mp h)
    subst hnil
    rfl
  | succ n ih =>
    rw [weldPass]
    rcases hm : weldMergeStep ls with _ | ls'
    · show weldScan ls = none
      rcases hscan : weldScan ls with _ | v
      · rfl
      · rcases v with ⟨i, j, uniq⟩
        rw [weldMergeStep, hscan] at hm
        have hm' : some (((ls.eraseIdx (max i j)).eraseIdx (min i j)) ++ [uniq])
            = none := hm
        exact absurd hm' (by simp)
    · show weldScan (weldPass n ls') = none
      exact ih ls' (by have := weldMergeStep_length ls ls' hm; omega)

lemma weld_of_scan_none (ls : List (Vec2 ℚ × Vec2 ℚ)) (h : weldScan ls = none) :
    weld ls = ls := by
  rw [weld]
  rcases hn : ls.length with _ | n
  · rfl
  · rw [weldPass, weldMergeStep, h]

/-- C9: the weld pass is idempotent.  `weld` always reaches a state where a
full scan finds no merge; running it again leaves the list unchanged; and in
the output no pair of distinct lines whose endpoints match the shared-endpoint
chain (in particular, no pair sharing exactly one endpoint) has collinear
direction vectors. -/
theorem weld_idempotent (ls : List (Vec2 ℚ × Vec2 ℚ)) :
    weldScan (weld ls) = none ∧
    weld (weld ls) = weld ls ∧
    (∀ i j l1 l2, i ≠ j → (weld ls).get? i = some l1 → (weld ls).get? j = some l2 →
      (weldSharedChain l1 l2).isSome = true → weldCollinear l1 l2 = false) := by
  have hfix : weldScan (weld ls) = none := weldPass_fix ls.length ls le_rfl
  refine ⟨hfix, weld_of_scan_none _ hfix, ?_⟩
  intro i j l1 l2 hij h1 h2 hchain
  have hi : i < (weld ls).length := by
    obtain ⟨hlt, -⟩ := List.get?_eq_some.mp h1
    exact hlt
  have hj : j < (weld ls).length := by
    obtain ⟨hlt, -⟩ := List.get?_eq_some.mp h2
    exact hlt
  have hall := List.findSome?_eq_none_iff.mp hfix (i, j) ((pairList_mem _ i j).mpr ⟨hi, hj⟩)
  rw [if_neg hij, h1, h2] at hall
  have hall' : (match weldSharedChain l1 l2 with
      | some uniq => if weldCollinear l1 l2 = true then some (i, j, uniq) else none
      | none => none) = none := hall
  rcases h3 : weldSharedChain l1 l2 with _ | uniq
  · rw [h3] at hchain
    exact absurd hchain (by simp)
  · rw [h3] at hall'
    have hall2 : (if weldCollinear l1 l2 = true then some (i, j, uniq) else none)
        = none := hall'
    by_cases h4 : weldCollinear l1 l2
    · rw [if_pos h4] at hall2
      exact absurd hall2 (by simp)
    · simpa using h4

/-- Witness for `weld_idempotent`: the two perpendicular unit edges sharing
`(0,0)` are already welded — the pass leaves them unchanged, and the shared
endpoint pair fails the collinearity test. -/
theorem weld_idempotent_witness :
    weld [(((0 : ℚ), (0 : ℚ)), ((1 : ℚ), (0 : ℚ))), (((0 : ℚ), (0 : ℚ)), ((0 : ℚ), (1 : ℚ)))]
        = [(((0 : ℚ), (0 : ℚ)), ((1 : ℚ), (0 : ℚ))), (((0 : ℚ), (0 : ℚ)), ((0 : ℚ), (1 : ℚ)))] ∧
      weldCollinear (((0 : ℚ), (0 : ℚ)), ((1 : ℚ), (0 : ℚ)))
        (((0 : ℚ), (0 : ℚ)), ((0 : ℚ), (1 : ℚ))) = false := by
  have hc1 : weldSharedChain (((0 : ℚ), (0 : ℚ)), ((1 : ℚ), (0 : ℚ)))
      (((0 : ℚ), (0 : ℚ)), ((0 : ℚ), (1 : ℚ)))
      = some (((1 : ℚ), (0 : ℚ)), ((0 : ℚ), (1 : ℚ))) := by
    rw [weldSharedChain, if_pos rfl]
  have hc2 : weldSharedChain (((0 : ℚ), (0 : ℚ)), ((0 : ℚ), (1 : ℚ)))
      (((0 : ℚ), (0 : ℚ)), ((1 : ℚ), (0 : ℚ)))
      = some (((0 : ℚ), (1 : ℚ)), ((1 : ℚ), (0 : ℚ))) := by
    rw [weldSharedChain, if_pos rfl]
  have hw1 : weldCollinear (((0 : ℚ), (0 : ℚ)), ((1 : ℚ), (0 : ℚ)))
      (((0 : ℚ), (0 : ℚ)), ((0 : ℚ), (1 : ℚ))) = false := by
    rw [weldCollinear]
    norm_num [dot, Prod.mk_sub_mk, Prod.ext_iff]
  have hw2 : weldCollinear (((0 : ℚ), (0 : ℚ)), ((0 : ℚ), (1 : ℚ)))
      (((0 : ℚ), (0 : ℚ)), ((1 : ℚ), (0 : ℚ))) = false := by
    rw [weldCollinear]
    norm_num [dot, Prod.mk_sub_mk, Prod.ext_iff]
  have hpl : pairList 2 = [(0, 0), (0, 1), (1, 0), (1, 1)] := rfl
  have hscan : weldScan [(((0 : ℚ), (0 : ℚ)), ((1 : ℚ), (0 : ℚ))),
      (((0 : ℚ), (0 : ℚ)), ((0 : ℚ), (1 : ℚ)))] = none := by
    rw [weldScan]
    rw [show ([(((0 : ℚ), (0 : ℚ)), ((1 : ℚ), (0 : ℚ))),
      (((0 : ℚ), (0 : ℚ)), ((0 : ℚ), (1 : ℚ)))] : List (Vec2 ℚ × Vec2 ℚ)).length
      = 2 from rfl, hpl]
    simp only [List.findSome?_cons, List.findSome?_nil]
    simp only [Prod.mk_zero_zero] at hc1 hc2 hw1 hw2
    norm_num [List.get?, hc1, hc2, hw1, hw2]
  have heq := weld_of_scan_none _ hscan
  refine ⟨heq, ?_⟩
  refine (weld_idempotent [(((0 : ℚ), (0 : ℚ)), ((1 : ℚ), (0 : ℚ))),
      (((0 : ℚ), (0 : ℚ)), ((0 : ℚ), (1 : ℚ)))]).2.2 0 1 _ _ (by norm_num) ?_ ?_ ?_
  · rw [heq]
    rfl
  · rw [heq]
    rfl
  · rw [hc1]
    rfl

/-- `point_in_polygon` from `src/level.rs`: fixed ray direction `(2,1)`
scaled by `1000`, odd crossing parity means inside. -/
def point_in_polygon (pts : List (Vec2 ℚ)) (p : Vec2 ℚ) : Bool :=
  ((edgePairs pts).filter (fun se =>
    (line_intersect se.1 se.2 p (p + ((2 : ℚ) * 1000, (1 : ℚ) * 1000))).isSome)).length % 2
    == 1

/-- `calculate_winding_order`: shoelace-style sum with wrap-around. -/
def calculate_winding_order (vs : List (Vec2 ℚ)) : ℚ :=
  (List.range vs.length).foldl (fun sum i =>
    sum + ((vs.getD ((i + 1) % vs.length) 0).1 - (vs.getD i 0).1) *
      ((vs.getD ((i + 1) % vs.length) 0).2 + (vs.getD i 0).2)) 0

/-- The inner search of the polygon-assembly loop: the first remaining line
touching the current vertex, its index, and the vertex at its other end. -/
def findCont (current : Vec2 ℚ) : List (Vec2 ℚ × Vec2 ℚ) → Option (ℕ × Vec2 ℚ)
  | [] => none
  | l :: rest =>
    if l.1 = current then some (0, l.2)
    else if l.2 = current then some (0, l.1)
    else (findCont current rest).map (fun p => (p.1 + 1, p.2))

/-- The inner `while start_vert != current_vert` loop of polygon assembly,
fueled by the remaining line count (each iteration consumes one line).
Returns the assembled point chain and the remaining lines; an unclosable
chain is kept as an open polygon (defensive `break`). -/
def assembleLoop : ℕ → Vec2 ℚ → Vec2 ℚ → List (Vec2 ℚ × Vec2 ℚ) → List (Vec2 ℚ) →
    List (Vec2 ℚ) × List (Vec2 ℚ × Vec2 ℚ)
  | 0, _, _, lines, acc => (acc, lines)
  | Nat.succ n, start, current, lines, acc =>
    if start = current then (acc, lines)
    else
      match findCont current lines with
      | none => (acc, lines)
      | some (i, nxt) => assembleLoop n start nxt (lines.eraseIdx i) (acc ++ [nxt])

/-- The outer `while line_count > 0` loop of polygon assembly, fueled by the
line count (each polygon consumes at least its seed line). -/
def assembleAll : ℕ → List (Vec2 ℚ × Vec2 ℚ) → List (List (Vec2 ℚ))
  | 0, _ => []
  | Nat.succ _, [] => []
  | Nat.succ n, l :: rest =>
    let r := assembleLoop rest.length l.1 l.2 rest [l.1, l.2]
    r.1 :: assembleAll n r.2

/-- Coordinate transform of `generate_level_polygons`:
`x += offset.x; y *= -1; y += offset.y`. -/
def transformPoint (offset : Vec2 ℚ) (p : Vec2 ℚ) : Vec2 ℚ :=
  (p.1 + offset.1, -p.2 + offset.2)

/-- `generate_level_polygons` from `src/level.rs`, with the parsed tile grid
as a parameter (the source `include_bytes!`s and parses an asset file first,
which is outside this core).  `none` models the panic of `json_data[0]` on a
grid with zero rows.  Colors are dropped.  `collision_side` is
`winding.signum()`, negated for the container polygon; `f32::signum` sends an
exact zero winding sum to `1`. -/
def generate_level_polygons (g : List (List ℕ)) (grid_size : ℚ) :
    Option (List PolygonQ × Vec2 ℚ × Vec2 ℚ) :=
  match g with
  | [] => none
  | r0 :: _ =>
    let size : Vec2 ℚ := ((r0.length : ℚ), (g.length : ℚ))
    let offset : Vec2 ℚ := (size.1 * (-grid_size) / 2, size.2 * grid_size / 2)
    let welded := weld (toLines (emitAll g grid_size))
    let lines := welded.map (fun l => (transformPoint offset l.1, transformPoint offset l.2))
    let loops := assembleAll lines.length lines
    let polys := loops.map (fun ps =>
      let is_container := point_in_polygon ps (0, 0)
      let w := calculate_winding_order ps
      (⟨ps, (if w < 0 then (-1 : ℚ) else 1) * (if is_container then -1 else 1)⟩ : PolygonQ))
    some (polys, size, (size.1 / 2, size.2 / 2))

/-- C8: level building does **not** fail fast on the inputs the spec declares
unrecoverable.  A grid with zero rows aborts only through the generic
index-out-of-bounds panic of `json_data[0]` (modelled as `none`), with no
descriptive error; a grid with zero columns builds normally and returns an
empty polygon list; a nonpositive cell size is accepted without any check and
builds four degenerate polygons collapsed onto the origin instead of
reporting anything. -/
theorem level_build_missing_validation :
    generate_level_polygons [] 10 = none ∧
    generate_level_polygons [[]] 10 = some ([], (0, 1), (0, 1/2)) ∧
    generate_level_polygons [[1]] 0 =
      some ([(⟨[(0, 0), (0, 0)], 1⟩ : PolygonQ), ⟨[(0, 0), (0, 0)], 1⟩,
        ⟨[(0, 0), (0, 0)], 1⟩, ⟨[(0, 0), (0, 0)], 1⟩], (1, 1), (1/2, 1/2)) := by
  refine ⟨rfl, ?_, ?_⟩
  · rw [generate_level_polygons]
    norm_num [emitAll, toLines, weld, weldPass, weldMergeStep, weldScan, pairList,
      assembleAll, Prod.ext_iff]
  · rw [generate_level_polygons]
    norm_num [emitAll, emitTile, tileAt, rowLen, gridPt, toLines, weld, weldPass,
      weldMergeStep, weldScan, pairList, weldSharedChain, weldCollinear, dot,
      assembleAll, assembleLoop, findCont, transformPoint, point_in_polygon,
      edgePairs, line_intersect, cross_product, calculate_winding_order,
      List.range_succ, Prod.ext_iff]

end FleeAI
